import Mathlib

/-!
# Verification of the zzping probing / retention / compression core

A shallow embedding, in Lean 4, of the parts of the `zzping` repository that
the specification's claims talk about:

* `zzping-lib/src/framedataq.rs` — the `FrameDataQ` record, percentile
  reduction, `fold_vec` aggregation, the `FDCodecState` timestamp/delta codec
  and the msgpack (de)serialisation of encoded records and of the codec
  header;
* `zzping-lib/src/framestats.rs` — the UDP stats wire encoder;
* `zzping-daemon/src/transport.rs` — per-destination state, the reply
  matcher (`Destination::recv`), the retention `cleanup`, the scheduler
  (`Comms::send_all`) and the statistics helpers.

Modelling conventions:

* Machine integers are `Nat`/`Int` with explicit two's-complement wrapping
  (`% 2^w`) at exactly the places the Rust source performs an `as` cast or a
  wrapping arithmetic operation.
* Monotonic instants and `Duration`s are `Nat`s counting nanoseconds;
  `Instant::saturating_duration_since` is truncated subtraction.
* The `f32` fields of records (`inflight`, `lost_packets`) are modelled as
  exact integers: every claim below constrains them to integer values that
  fit well inside `f32`'s exact range, for which the `f32` operations the
  code performs (`round`, sums, integer casts, square root of perfect
  squares) are exact.
* The `f32` percentile fractions `{0, 0.125, 0.25, 0.5, 0.75, 0.875, 1.0}`
  are eighths, hence dyadic and exact in `f32`; a percentile index
  `p = (k/8)·vmax` is represented by its exact numerator `k·vmax` over the
  fixed denominator `8`, and floor/ceil/interpolation of `p` become integer
  arithmetic on that numerator.
* Fallible operations return `Option`/`Except`; `none` also models a panic
  (`unwrap` on a mismatching variant).
* msgpack output is modelled as a list of abstract tokens: the byte-level
  encoding of single values is performed by the third-party `rmp` crate,
  which is outside this repository, while the record structure written and
  re-read (the part implemented here) is preserved exactly.
-/

namespace ZZPing

/-! ## Machine-integer helpers -/

/-- `u32` truncation (`as u32` on an unsigned value). -/
def wrapU32 (n : Nat) : Nat := n % 2 ^ 32

/-- `u64`/`usize` truncation on an unsigned value. -/
def wrapU64 (n : Nat) : Nat := n % 2 ^ 64

/-- `as u32` applied to a signed value — two's complement truncation. -/
def toU32I (i : Int) : Nat := (i % 2 ^ 32).toNat

/-- `as u64` applied to a signed value — two's complement truncation. -/
def toU64I (i : Int) : Nat := (i % 2 ^ 64).toNat

/-- `as i64` applied to a wider signed value — two's complement truncation. -/
def toI64 (i : Int) : Int := (i + 2 ^ 63) % 2 ^ 64 - 2 ^ 63

/-- `SubSecType`: an absolute or delta sub-second millisecond count (u32). -/
inductive SubSecType where
  | Abs : Nat → SubSecType
  | Delta : Nat → SubSecType
deriving DecidableEq, Repr

/-- `SubSecType::unwrap_abs_or_add` (the `Delta` branch is a u32 add). -/
def SubSecType.unwrapAbsOrAdd (s : SubSecType) (reference : Nat) : Nat :=
  match s with
  | .Abs v => v
  | .Delta v => wrapU32 (v + reference)

/-- `FrameDataQ` — the quantile summary record.  The `Complete`/`Encoded`
phantom parameter of the Rust type carries no data and is dropped; the
`f32` fields `inflight`/`lost_packets` are exact integers (see header). -/
structure FrameDataQ where
  timestamp : Option Int
  subsec_ms : SubSecType
  inflight : Int
  lost_packets : Int
  recv_us_len : Nat
  recv_us : List Int
deriving DecidableEq, Repr

/-- Fuel-based floor of `log2` (`natLog2Go n n` halves at most `log2 n ≤ n`
times) — kernel-reducible, unlike the well-founded `Nat.log2`. -/
def natLog2Go : Nat → Nat → Nat
  | 0, _ => 0
  | f + 1, n => if n < 2 then 0 else natLog2Go f (n / 2) + 1

/-- See `natLog2Go`: `2 ^ natLog2 n ≤ n < 2 ^ (natLog2 n + 1)` for `n ≥ 1`. -/
def natLog2 (n : Nat) : Nat := natLog2Go n n

/-- Modelled from the spec: `LinearLogQuantizer` (`compress/quantize.rs`) is
not among the sources provided — only its callers are.  The claims below all
fix `recv_llq = none`, so only the precision carried in the codec config is
ever observed; the `encode`/`decode` maps (linear below a threshold,
logarithmic above, spec §4.9c) are left as the identity placeholder so that
the — for these claims dead — branches mentioning them stay well-formed. -/
structure LinearLogQuantizer where
  precision : ℚ
deriving DecidableEq

/-- See `LinearLogQuantizer`: placeholder for the missing quantizer map. -/
def LinearLogQuantizer.encode (_llq : LinearLogQuantizer) (v : Int) : Int := v

/-- See `LinearLogQuantizer`: placeholder for the missing quantizer map. -/
def LinearLogQuantizer.decode (_llq : LinearLogQuantizer) (v : Int) : Int := v

/-- `LinearLogQuantizer::get_precision`. -/
def LinearLogQuantizer.getPrecision (llq : LinearLogQuantizer) : ℚ := llq.precision

/-- `FDCodecCfg`. -/
structure FDCodecCfg where
  full_encode_secs : Int
  recv_llq : Option LinearLogQuantizer
  delta_enc : Bool
deriving DecidableEq

/-- `impl Default for FDCodecCfg`. -/
def FDCodecCfg.default : FDCodecCfg :=
  { full_encode_secs := 60, recv_llq := none, delta_enc := false }

/-- `FDCodecState`. -/
structure FDCodecState where
  cfg : FDCodecCfg
  last_timestamp : Option Int
  last_subsec_ms : Nat
  last_recvq_0 : Int
deriving DecidableEq

/-- `FDCodecState::new`. -/
def FDCodecState.new (cfg : FDCodecCfg) : FDCodecState :=
  { cfg, last_timestamp := none, last_subsec_ms := 0, last_recvq_0 := 0 }

/-- `FDCodecState::push`. -/
def FDCodecState.push (s : FDCodecState) (d : FrameDataQ) : FDCodecState :=
  let s1 := match d.timestamp with
    | some ts => { s with last_timestamp := some ts }
    | none => s
  let s2 := match d.subsec_ms with
    | .Abs v => { s1 with last_subsec_ms := v }
    | .Delta v => { s1 with last_subsec_ms := wrapU32 (s1.last_subsec_ms + v) }
  if s2.cfg.delta_enc then
    { s2 with last_recvq_0 :=
        match s2.cfg.recv_llq with
        | some llq => llq.encode (d.recv_us.headD 0)
        | none => d.recv_us.headD 0 }
  else s2

/-- `FDCodecState::peek_encode`.  `none` models `d.timestamp.unwrap()`
panicking on a delta record.  The `i64`/`u32` arithmetic wraps exactly where
the source's casts and overflowing operations sit. -/
def FDCodecState.peekEncode (s : FDCodecState) (d : FrameDataQ) : Option FrameDataQ := do
  let dts0 ← d.timestamp
  let subsec_ms := match d.subsec_ms with
    | .Abs v => v
    | .Delta v => wrapU32 (s.last_subsec_ms + v)
  let subsec_ms_part := subsec_ms % 1000
  let d_ts := toI64 (dts0 + (((subsec_ms - subsec_ms_part) / 1000 : Nat) : Int))
  let extra_subsecs : Option Nat :=
    match s.last_timestamp with
    | some last_ts =>
        if s.cfg.full_encode_secs ≤ toI64 (d_ts - last_ts) ∨ d_ts < last_ts then none
        else some (toU32I ((d_ts - last_ts) * 1000))
    | none => none
  let d1 := match extra_subsecs with
    | none => { d with timestamp := some d_ts, subsec_ms := SubSecType.Abs subsec_ms_part }
    | some extra =>
        { d with
          timestamp := none
          subsec_ms := SubSecType.Delta
            (toU32I (((extra : Int) + (subsec_ms_part : Int)) - (s.last_subsec_ms : Int))) }
  match s.cfg.recv_llq with
  | some llq =>
      if 0 < d1.recv_us_len then
        some { d1 with recv_us := d1.recv_us.map (fun v => llq.encode v - s.last_recvq_0) }
      else some d1
  | none => some d1

/-- `FDCodecState::encode`: `peek_encode` then `push` of the original. -/
def FDCodecState.encode (s : FDCodecState) (d : FrameDataQ) :
    Option (FrameDataQ × FDCodecState) := do
  let dr ← s.peekEncode d
  some (dr, s.push d)

/-- `FDCodecState::peek_decode`.  `none` models the `expect` panic when a
delta record arrives with no reference timestamp in the state. -/
def FDCodecState.peekDecode (s : FDCodecState) (d : FrameDataQ) : Option FrameDataQ := do
  let ts0 ← match d.timestamp with
    | some ts => some ts
    | none => s.last_timestamp
  let subsec_ms := d.subsec_ms.unwrapAbsOrAdd s.last_subsec_ms
  let subsec_ms_part := subsec_ms % 1000
  let ts := toI64 (ts0 + (((subsec_ms - subsec_ms_part) / 1000 : Nat) : Int))
  let d1 := { d with timestamp := some ts, subsec_ms := SubSecType.Abs subsec_ms_part }
  match s.cfg.recv_llq with
  | some llq =>
      if 0 < d1.recv_us_len then
        some { d1 with recv_us := d1.recv_us.map llq.decode }
      else some d1
  | none => some d1

/-- `FDCodecState::decode`: `peek_decode` then `push` of the decoded record. -/
def FDCodecState.decode (s : FDCodecState) (d : FrameDataQ) :
    Option (FrameDataQ × FDCodecState) := do
  let dc ← s.peekDecode d
  some (dc, s.push dc)

/-! ## msgpack wire model (`rmp` writes, `dynrmp` reads) -/

/-- One serialised msgpack value.  The byte-level encoding of single values
is the third-party `rmp` crate's; the repository's code only chooses the
sequence of values, which is what the token list records.  Integer tokens
carry the written value (`write_uint` writes the `u64` operand, `write_sint`
and `write_nfix` the signed operand). -/
inductive Tok where
  | nil
  | int (v : Int)
  | str (s : String)
  | bool (b : Bool)
  | f64 (q : ℚ)
  | arr (n : Nat)
  | mapLen (n : Nat)
deriving DecidableEq

/-- The dynamic value tree of `dynrmp::variant::Variant` (`Integer` is an
`i128`; `Map` keeps its entries as a key-value list with replace-on-repeat
insertion, modelling the `HashMap`). -/
inductive Variant where
  | str (s : String)
  | int (v : Int)
  | bool (b : Bool)
  | arrV (xs : List Variant)
  | nullV
  | float (q : ℚ)
  | mapV (entries : List (Variant × Variant))

mutual

/-- Structural equality of `Variant`s (the derived `PartialEq`). -/
def Variant.beq : Variant → Variant → Bool
  | .str a, .str b => a == b
  | .int a, .int b => a == b
  | .bool a, .bool b => a == b
  | .nullV, .nullV => true
  | .float a, .float b => a == b
  | .arrV a, .arrV b => Variant.beqList a b
  | .mapV a, .mapV b => Variant.beqPairs a b
  | _, _ => false

/-- See `Variant.beq`. -/
def Variant.beqList : List Variant → List Variant → Bool
  | [], [] => true
  | a :: as', b :: bs' => Variant.beq a b && Variant.beqList as' bs'
  | _, _ => false

/-- See `Variant.beq`. -/
def Variant.beqPairs : List (Variant × Variant) → List (Variant × Variant) → Bool
  | [], [] => true
  | (ak, av) :: as', (bk, bv) :: bs' =>
      Variant.beq ak bk && Variant.beq av bv && Variant.beqPairs as' bs'
  | _, _ => false

end

/-- Decoder-side errors (`DError` / `XError` / `NumValueReadError`), plus
`panic` for modelled panics and `fuel` for the reader's structural fuel
(never hit: each read consumes at least one token and the fuel starts at
the token count). -/
inductive DErr where
  | eof
  | typeMismatch
  | outOfRange
  | unexpectedData (msg : String)
  | headerFieldMissing (field : String)
  | panic
  | fuel
deriving DecidableEq

instance {ε α : Type} [DecidableEq ε] [DecidableEq α] : DecidableEq (Except ε α) :=
  fun a b =>
    match a, b with
    | .ok x, .ok y => if h : x = y then isTrue (by rw [h]) else isFalse (by simp [h])
    | .error x, .error y => if h : x = y then isTrue (by rw [h]) else isFalse (by simp [h])
    | .ok _, .error _ => isFalse (by simp)
    | .error _, .ok _ => isFalse (by simp)

/-- `HashMap::insert` on the entry-list model: replace an existing key or
append. -/
def mapInsert (m : List (Variant × Variant)) (k v : Variant) : List (Variant × Variant) :=
  if m.any (fun e => e.1.beq k) then m.map (fun e => if e.1.beq k then (k, v) else e)
  else m ++ [(k, v)]

mutual

/-- `Variant::read`: parse one value off the token stream. -/
def variantRead : Nat → List Tok → Except DErr (Variant × List Tok)
  | 0, _ => .error .fuel
  | _ + 1, [] => .error .eof
  | fuel + 1, t :: rest =>
    match t with
    | .nil => .ok (.nullV, rest)
    | .int v => .ok (.int v, rest)
    | .str s => .ok (.str s, rest)
    | .bool b => .ok (.bool b, rest)
    | .f64 q => .ok (.float q, rest)
    | .arr n =>
        match variantReadN fuel n rest with
        | .error e => .error e
        | .ok (xs, rest1) => .ok (.arrV xs, rest1)
    | .mapLen n =>
        match variantReadMap fuel n [] rest with
        | .error e => .error e
        | .ok (entries, rest1) => .ok (.mapV entries, rest1)

/-- `dynrmp::read_array`: read `n` values. -/
def variantReadN : Nat → Nat → List Tok → Except DErr (List Variant × List Tok)
  | 0, _, _ => .error .fuel
  | _ + 1, 0, rest => .ok ([], rest)
  | fuel + 1, n + 1, rest =>
      match variantRead fuel rest with
      | .error e => .error e
      | .ok (x, rest1) =>
        match variantReadN fuel n rest1 with
        | .error e => .error e
        | .ok (xs, rest2) => .ok (x :: xs, rest2)

/-- `dynrmp::read_map`: read `n` key-value pairs into the map. -/
def variantReadMap : Nat → Nat → List (Variant × Variant) → List Tok →
    Except DErr (List (Variant × Variant) × List Tok)
  | 0, _, _, _ => .error .fuel
  | _ + 1, 0, acc, rest => .ok (acc, rest)
  | fuel + 1, n + 1, acc, rest =>
      match variantRead fuel rest with
      | .error e => .error e
      | .ok (k, rest1) =>
        match variantRead fuel rest1 with
        | .error e => .error e
        | .ok (v, rest2) => variantReadMap fuel n (mapInsert acc k v) rest2

end

/-- `Variant::read` on a token stream: the fuel (a structural-termination
artifact) is `2·|toks| + 2`, which dominates the reader's recursion depth —
every two layers consume at least one token — so `DErr.fuel` never fires. -/
def variantReadFrom (toks : List Tok) : Except DErr (Variant × List Tok) :=
  variantRead (2 * toks.length + 2) toks

/-- `Variant::str`. -/
def Variant.strE : Variant → Except DErr String
  | .str s => .ok s
  | _ => .error .typeMismatch

/-- `Variant::int`. -/
def Variant.intE : Variant → Except DErr Int
  | .int v => .ok v
  | _ => .error .typeMismatch

/-- `rmp::decode::read_int::<T>`: one integer token whose value must lie in
`T`'s range (`NumValueReadError::OutOfRange` otherwise). -/
def readIntRange (lo hi : Int) : List Tok → Except DErr (Int × List Tok)
  | .int v :: rest => if lo ≤ v ∧ v ≤ hi then .ok (v, rest) else .error .outOfRange
  | _ :: _ => .error .typeMismatch
  | [] => .error .eof

/-- `read_int::<usize>`. -/
def readUsizeTok : List Tok → Except DErr (Int × List Tok) :=
  readIntRange 0 (2 ^ 64 - 1)

/-- `read_int::<i64>`. -/
def readI64Tok : List Tok → Except DErr (Int × List Tok) :=
  readIntRange (-(2 ^ 63)) (2 ^ 63 - 1)

/-- The in-record delta chain of `try_to_rmp`: `dv = v − prev` (an `i64`
subtraction, hence wrapped), `prev = v`. -/
def deltaEncodeRecv : Int → List Int → List Int
  | _, [] => []
  | prev, v :: t => toI64 (v - prev) :: deltaEncodeRecv v t

/-- The prefix-sum chain of `try_from_rmp`: `v = dv + prev` in `i128`,
stored `as i64`, `prev = v`. -/
def recvPrefixSums : Int → List Int → List Int
  | _, [] => []
  | prev, dv :: t =>
      let v := dv + prev
      toI64 v :: recvPrefixSums v t

/-- Rust `f32 as u64`/`f32 as usize` on an integer-valued float: saturating
to the target range. -/
def satU64 (i : Int) : Nat :=
  if i < 0 then 0 else min i.toNat (2 ^ 64 - 1)

/-- `impl RMPCodec for FrameDataQ<Encoded>`, `try_to_rmp`.  `none` models
the `unwrap_abs`/`unwrap_delta` panics when the timestamp tag and the
subsec tag disagree.  `inflight.round()`/`lost_packets.round()` are the
identity on the integer-modelled `f32` fields. -/
def FrameDataQ.tryToRmp (d : FrameDataQ) : Option (List Tok) := do
  let (tsToks, subsec_ms) ←
    match d.timestamp, d.subsec_ms with
    | some val, .Abs v => some ([Tok.int ((toU64I val : Nat) : Int)], v)
    | some _, .Delta _ => none
    | none, .Delta v => some ([Tok.nil], v)
    | none, .Abs _ => none
  let iflToks :=
    if 0 < wrapU64 (satU64 d.inflight + satU64 d.lost_packets) then
      [Tok.int ((satU64 d.inflight : Nat) : Int), Tok.int ((satU64 d.lost_packets : Nat) : Int)]
    else [Tok.int (-1)]
  let recvToks :=
    if 0 < d.recv_us_len then
      Tok.arr 7 :: (deltaEncodeRecv 0 d.recv_us).map Tok.int
    else []
  some (tsToks ++ [Tok.int (subsec_ms : Int)] ++ iflToks
    ++ [Tok.int ((wrapU64 d.recv_us_len : Nat) : Int)] ++ recvToks)

/-- `impl RMPCodec for FrameDataQ<Encoded>`, `try_from_rmp`. -/
def variantIntList : List Variant → Except DErr (List Int)
  | [] => .ok []
  | Variant.int v :: t =>
      match variantIntList t with
      | .error e => .error e
      | .ok vs => .ok (v :: vs)
  | _ :: _ => .error (DErr.unexpectedData ("recv_var.int"))

/-- `impl RMPCodec for FrameDataQ<Encoded>`, `try_from_rmp`. -/
def FrameDataQ.tryFromRmp (toks : List Tok) : Except DErr (FrameDataQ × List Tok) :=
  match variantReadFrom toks with
  | .error e => .error e
  | .ok (ts_var, r1) =>
    match (match ts_var with
           | .nullV => Except.ok (none : Option Int)
           | .int v => Except.ok (some (toI64 v))
           | _ => Except.error (DErr.unexpectedData ("want Null or Int"))) with
    | .error e => .error e
    | .ok timestamp =>
      match readUsizeTok r1 with
      | .error e => .error e
      | .ok (subsec_v, r2) =>
        let subsec_ms := match timestamp with
          | some _ => SubSecType.Abs (toU32I subsec_v)
          | none => SubSecType.Delta (toU32I subsec_v)
        match readI64Tok r2 with
        | .error e => .error e
        | .ok (ifl, r3) =>
          let inflight : Int := if ifl = -1 then 0 else ifl
          match (if ifl = -1 then Except.ok ((0 : Int), r3)
                 else readUsizeTok r3) with
          | .error e => .error e
          | .ok (lost_packets, r4) =>
            match readUsizeTok r4 with
            | .error e => .error e
            | .ok (recv_len, r5) =>
              let recv_us_len := recv_len.toNat
              if 0 < recv_us_len then
                match variantReadFrom r5 with
                | .error e => .error e
                | .ok (recv_var, r6) =>
                  match (match recv_var with
                         | .arrV xs => Except.ok xs
                         | _ => Except.error DErr.typeMismatch) with
                  | .error e => .error e
                  | .ok slice =>
                    if 7 < slice.length then Except.error DErr.panic
                    else
                      match variantIntList slice with
                      | .error e => .error e
                      | .ok vals =>
                        let filled := recvPrefixSums 0 vals
                        let recv_us := filled ++ List.replicate (7 - filled.length) (-1)
                        Except.ok ({ timestamp, subsec_ms, inflight, lost_packets,
                                     recv_us_len, recv_us }, r6)
              else
                Except.ok ({ timestamp, subsec_ms, inflight, lost_packets, recv_us_len,
                             recv_us := List.replicate 7 (-1) }, r5)

/-- The full claimed round-trip pipeline: `FDCodecState::encode`, then
`RMPCodec::try_to_rmp`, then `RMPCodec::try_from_rmp`, then
`FDCodecState::decode` with a decoder state that has processed the same
preceding records (i.e. the same state `s`). -/
def roundTrip (s : FDCodecState) (r : FrameDataQ) : Option FrameDataQ :=
  match s.encode r with
  | none => none
  | some (e, _) =>
    match e.tryToRmp with
    | none => none
    | some toks =>
      match FrameDataQ.tryFromRmp toks with
      | .error _ => none
      | .ok (d, _) =>
        match s.decode d with
        | none => none
        | some (c, _) => some c

/-- `FDCodecState::HEADER_SCHEMA`. -/
def headerSchema : String := "FDCodec"

/-- `FDCodecState::HEADER_VERSION`. -/
def headerVersion : Nat := 101

/-- `FDCodecState::try_get_header` (writing to a `Vec` cannot fail, so the
`Result` is always `Ok`): the five-field header map. -/
def FDCodecState.tryGetHeader (cfg : FDCodecCfg) : List Tok :=
  [Tok.mapLen 5,
   Tok.str ("schema"), Tok.str headerSchema,
   Tok.str ("version"), Tok.int (headerVersion : Int),
   Tok.str ("full_encode_secs"), Tok.int ((toU64I cfg.full_encode_secs : Nat) : Int),
   Tok.str ("recv_llq")] ++
  (match cfg.recv_llq with
   | some llq => [Tok.f64 llq.getPrecision]
   | none => [Tok.nil]) ++
  [Tok.str ("delta_enc"), Tok.bool cfg.delta_enc]

/-- Modelled from the spec: `Map::into_strhashmap` (`dynrmp/map.rs` is not
among the sources provided; the file is declared and used but absent).
Faithful to its one caller's needs: every key of the header map must be a
string, yielding a string-keyed map, any non-string key is an error. -/
def intoStrHashmap : List (Variant × Variant) → Except DErr (List (String × Variant))
  | [] => .ok []
  | (k, v) :: t =>
    match k with
    | .str s =>
        (match intoStrHashmap t with
         | .error e => .error e
         | .ok m => .ok ((s, v) :: m))
    | _ => .error .typeMismatch

/-- `HashMap::get` on the string-keyed model (keys are unique by
construction), with the `XError::header_field_missing` default. -/
def strMapGet (m : List (String × Variant)) (field : String) : Except DErr Variant :=
  match m.find? (fun e => e.1 == field) with
  | some e => .ok e.2
  | none => .error (.headerFieldMissing field)

/-- The body of `FDCodecState::try_from_header` after the header map has
been read: schema / version checks, then field extraction.  `.as_bool()`
on a non-bool panics (`DErr.panic`). -/
def FDCodecState.tryFromHeaderMap (header : List (String × Variant)) :
    Except DErr FDCodecCfg :=
  match strMapGet header ("schema") with
  | .error e => .error e
  | .ok schemaV =>
    match schemaV.strE with
    | .error e => .error e
    | .ok schema =>
      if schema ≠ headerSchema then
        Except.error (DErr.unexpectedData ("Incompatible header, wrong file format"))
      else
        match strMapGet header ("version") with
        | .error e => .error e
        | .ok versionV =>
          match versionV.intE with
          | .error e => .error e
          | .ok versionI =>
            if headerVersion < toU64I versionI then
              Except.error
                (DErr.unexpectedData ("File format has a newer, unsupported version"))
            else
              match strMapGet header ("full_encode_secs") with
              | .error e => .error e
              | .ok fesV =>
                match fesV.intE with
                | .error e => .error e
                | .ok fesI =>
                  let full_encode_secs := toI64 fesI
                  match strMapGet header ("recv_llq") with
                  | .error e => .error e
                  | .ok recvLlqV =>
                    match strMapGet header ("delta_enc") with
                    | .error e => .error e
                    | .ok delta_encV =>
                      match (match delta_encV with
                             | .bool b => Except.ok b
                             | _ => Except.error DErr.panic) with
                      | .error e => .error e
                      | .ok delta_enc =>
                        match (match recvLlqV with
                               | .nullV => Except.ok (none : Option LinearLogQuantizer)
                               | .float v => Except.ok (some (LinearLogQuantizer.mk v))
                               | _ => Except.error (DErr.unexpectedData
                                   ("recv_llq expected to be nil or float type"))) with
                        | .error e => .error e
                        | .ok recv_llq =>
                            Except.ok { full_encode_secs, recv_llq, delta_enc }

/-- `FDCodecState::try_from_header`: read the header `Variant`, convert to
a string-keyed map, then check and extract. -/
def FDCodecState.tryFromHeader (toks : List Tok) : Except DErr FDCodecCfg :=
  match variantReadFrom toks with
  | .error e => .error e
  | .ok (v, _) =>
    match (match v with
           | Variant.mapV entries => Except.ok entries
           | _ => Except.error DErr.typeMismatch) with
    | .error e => .error e
    | .ok m =>
      match intoStrHashmap m with
      | .error e => .error e
      | .ok hm => FDCodecState.tryFromHeaderMap hm

/-! ## UDP stats wire encoder (`framestats.rs`) -/

/-- `u16` truncation. -/
def wrapU16 (n : Nat) : Nat := n % 2 ^ 16

/-- Round a rational to the nearest integer, ties to the even one —
IEEE-754 round-to-nearest-even on an exact value. -/
def roundHalfEvenQ (x : ℚ) : Int :=
  if x - ⌊x⌋ < 1 / 2 then ⌊x⌋
  else if 1 / 2 < x - ⌊x⌋ then ⌊x⌋ + 1
  else if ⌊x⌋ % 2 = 0 then ⌊x⌋ else ⌊x⌋ + 1

/-- `2 ^ e` for a signed exponent, as an exact rational. -/
def pow2z (e : Int) : ℚ :=
  if 0 ≤ e then ((2 ^ e.toNat : Nat) : ℚ)
  else 1 / ((2 ^ (-e).toNat : Nat) : ℚ)

/-- The binade of a positive rational: the `e` with `2^e ≤ q < 2^(e+1)`,
found through the kernel-reducible `natLog2` of `⌊q⌋` (or of `⌊1/q⌋` below
one, with the exact-power boundary re-checked). -/
def qexp (q : ℚ) : Int :=
  if 1 ≤ q then (natLog2 (⌊q⌋).toNat : Int)
  else
    let b := natLog2 (⌊1 / q⌋).toNat
    if ((2 ^ b : Nat) : ℚ) * q = 1 then -(b : Int) else -(b : Int) - 1

/-- `f32` round-to-nearest-even of an exact rational: the significand grid
of `q`'s binade is `2^(e−23)` with `e = qexp q`, and `q` is snapped to the
nearest grid point, ties to the even significand.  Negative values are
collapsed to zero (every use feeds the saturating `as u32` cast, which
sends all of them to 0 anyway), and subnormals (below `2⁻¹²⁶`) and
overflow (at `2¹²⁸`) are not modelled — the transported quantities are
loss per-mille counts. -/
def roundF32Q (q : ℚ) : ℚ :=
  if q ≤ 0 then 0
  else ((roundHalfEvenQ (q * pow2z (23 - qexp q)) : Int) : ℚ)
    * pow2z (qexp q - 23)

/-- Rust `f32 as u32`: truncation toward zero, saturating to `[0, 2³²)`. -/
def satF32toU32 (q : ℚ) : Nat :=
  let t := q.num.tdiv (q.den : Int)
  if t < 0 then 0 else min t.toNat (2 ^ 32 - 1)

/-- `FrameStats`. -/
structure FrameStats where
  addr_str : String
  inflight_count : Nat
  avg_time_us : Nat
  last_pckt_ms : Nat
  packet_loss_x100_000 : Nat
deriving DecidableEq

/-- `FrameStats::encode`: a length-5 array — address string, in-flight as
`u16`, average time (µs) as `u32`, last-packet age (ms) as `u32`, and the
scaled loss as `u32`. -/
def FrameStats.encode (f : FrameStats) : List Tok :=
  [Tok.arr 5,
   Tok.str f.addr_str,
   Tok.int ((wrapU16 f.inflight_count : Nat) : Int),
   Tok.int ((wrapU32 f.avg_time_us : Nat) : Int),
   Tok.int ((wrapU32 f.last_pckt_ms : Nat) : Int),
   Tok.int ((f.packet_loss_x100_000 : Nat) : Int)]

/-- `FrameStats::encode_stats`.  Durations are nanosecond counts
(`as_micros` = `/1000`, `as_millis` = `/1000000`); the `IpAddr` is modelled
by its textual form (`to_string` is the identity on it); `packet_loss`
carries the exact value of the `f32` loss percentage, and the `f32`
multiplication `packet_loss * 1000.0` rounds its exact product through
`roundF32Q` before the saturating `as u32` truncation; writing to a `Vec`
cannot fail, so the result is always `Ok`. -/
def FrameStats.encodeStats (addr : String) (inflight_count : Nat)
    (avg_time : Nat) (last_pckt_received : Nat) (packet_loss : ℚ) :
    Except String (List Tok) :=
  let stat : FrameStats :=
    { addr_str := addr
      inflight_count := inflight_count
      avg_time_us := avg_time / 1000
      last_pckt_ms := last_pckt_received / 1000000
      packet_loss_x100_000 := satF32toU32 (roundF32Q (packet_loss * 1000)) }
  Except.ok stat.encode

/-! ## ICMP transport and per-destination state
(`zzping-daemon/src/{icmp,transport}.rs`)

Monotonic instants and durations are nanosecond counts (`Nat`);
`saturating_duration_since` and `Instant - Duration` are truncated
subtraction.  The per-destination `ThreadRng` is replaced by explicit
arguments (the drawn admission threshold, jitter and next sequence number),
the transport channel by the constructed packet itself, and the optional
log-file handle is omitted (pure I/O). -/

/-- `icmp::PacketData`; `received` is the optional monotonic arrival
instant; the `IpAddr` is kept in textual form. -/
structure PacketData where
  seqn : Nat
  ident : Nat
  addr : String
  received : Option Nat
deriving DecidableEq

/-- `icmp::PacketData::new`. -/
def PacketData.new (seqn ident : Nat) (addr : String) : PacketData :=
  { seqn, ident, addr, received := none }

/-- `icmp::PacketSent`; `sent`/`when_wall` are the monotonic and wall-clock
send stamps, `received` the optional round-trip `Duration`. -/
structure PacketSent where
  data : PacketData
  sent : Nat
  when_wall : Nat
  received : Option Nat
deriving DecidableEq

/-- `icmp::PacketSent::new` (the kernel send itself is I/O; `now`/`wall`
are the two clock reads). -/
def PacketSent.new (data : PacketData) (now wall : Nat) : PacketSent :=
  { data, sent := now, when_wall := wall, received := none }

/-- `transport::recv_before`: received before `now − wait`
(`now.saturating_duration_since(pck.sent + received) < wait`, with
`received.unwrap_or_default()`). -/
def recvBefore (pck : PacketSent) (now wait : Nat) : Bool :=
  now - (pck.sent + pck.received.getD 0) < wait

/-- `transport::sent_before`. -/
def sentBefore (pck : PacketSent) (now wait : Nat) : Bool :=
  now - pck.sent < wait

/-- `transport::sent_after`. -/
def sentAfter (pck : PacketSent) (now wait : Nat) : Bool :=
  ! sentBefore pck now wait

/-- `transport::Destination` (without the cached `ThreadRng` and the
log-file handle — see the section header). -/
structure Destination where
  str_addr : String
  interval : Nat
  addr : String
  seq : Nat
  ident : Nat
  last_pckt_sent : Nat
  inflight_packets : List PacketSent
  recv_packets : List PacketSent
  lost_packets : List PacketSent
  sent_count : Nat
  recv_count : Nat
deriving DecidableEq

/-- `Destination::new` at monotonic instant `now` with the randomly drawn
`ident`; `parse_ipaddr` is modelled as the identity on the textual
address; `last_pckt_sent = now − interval` so the first send fires
immediately. -/
def Destination.new (str_addr : String) (interval now identR : Nat) : Destination :=
  { str_addr
    interval
    addr := str_addr
    seq := 1
    ident := identR
    last_pckt_sent := now - interval
    inflight_packets := []
    recv_packets := []
    lost_packets := []
    sent_count := 0
    recv_count := 0 }

/-- The `for sent in self.inflight_packets.iter_mut()` loop of
`Destination::recv`: returns the updated in-flight entries (in order), the
entries pushed to `recv_packets` (in order), the return value (the *last*
match wins) and the number of matches.  `checked_duration_since` fails when
the reply "arrived" before the send (the duplicate-reply hazard): the entry
is left unset and skipped. -/
def recvScan (packet : PacketData) (now : Nat) :
    List PacketSent → List PacketSent × List PacketSent × Option (String × Nat) × Nat
  | [] => ([], [], none, 0)
  | sent :: t =>
    if sent.data.seqn = packet.seqn ∧ sent.received = none then
      let newReceived : Option Nat :=
        match packet.received with
        | some r => if sent.sent ≤ r then some (r - sent.sent) else none
        | none => some (now - sent.sent)
      match newReceived with
      | none =>
          let (t1, pushes, ret, cnt) := recvScan packet now t
          (sent :: t1, pushes, ret, cnt)
      | some rtt =>
          let sent1 := { sent with received := some rtt }
          let (t1, pushes, ret, cnt) := recvScan packet now t
          (sent1 :: t1, sent1 :: pushes,
           (if ret.isSome then ret else some (packet.addr, rtt)), cnt + 1)
    else
      let (t1, pushes, ret, cnt) := recvScan packet now t
      (sent :: t1, pushes, ret, cnt)

/-- `Destination::recv`: match an inbound packet against the in-flight
queue; `now` is the clock read of the `elapsed()` fallback (used only when
the inbound packet carries no arrival stamp). -/
def Destination.recv (d : Destination) (packet : PacketData) (now : Nat) :
    Option (String × Nat) × Destination :=
  if d.ident ≠ packet.ident then (none, d)
  else
    let scanned := recvScan packet now d.inflight_packets
    let infl1 := scanned.1
    let pushes := scanned.2.1
    let ret := scanned.2.2.1
    let cnt := scanned.2.2.2
    let d1 := { d with
      recv_count := d.recv_count + cnt
      recv_packets := d.recv_packets ++ pushes
      inflight_packets :=
        if ret.isSome then infl1.filter (fun x => x.received = none) else infl1 }
    (ret, d1)

/-- A full match of an in-flight entry against an inbound packet that
arrived at instant `arr`: matching sequence number, round-trip unset, and
`checked_duration_since` succeeding (`sent ≤ arr`). -/
def isFullMatch (p : PacketData) (arr : Nat) (s : PacketSent) : Bool :=
  decide (s.data.seqn = p.seqn ∧ s.received = none ∧ s.sent ≤ arr)

/-- `Destination::send`.  `rnd_num` is the drawn admission threshold
(`gen_range(16, 64)`), `jitter` the drawn `[0, 100]`µs pacing jitter (in
nanoseconds here), `new_seq` the next random sequence number; the queue
length is compared `as u16`. -/
def Destination.send (d : Destination) (now wall min_delay rnd_num jitter new_seq : Nat) :
    Bool × Destination :=
  let inflight := wrapU16 d.inflight_packets.length
  if rnd_num < inflight then (false, d)
  else if now - d.last_pckt_sent + min_delay < d.interval then (false, d)
  else
    let packet := PacketSent.new (PacketData.new d.seq d.ident d.addr) now wall
    (true, { d with
      last_pckt_sent := now - jitter
      inflight_packets := d.inflight_packets ++ [packet]
      seq := new_seq
      sent_count := d.sent_count + 1 })

/-- `Destination::received_last`: the received packets whose arrival lies
within the last `wait` of `now` (clones). -/
def Destination.receivedLast (d : Destination) (now wait : Nat) : List PacketSent :=
  d.recv_packets.filter (fun x => recvBefore x now wait)

/-- `Destination::inflight_after`. -/
def Destination.inflightAfter (d : Destination) (now wait : Nat) : List PacketSent :=
  d.inflight_packets.filter (fun x => ! recvBefore x now wait)

/-- `Destination::mean_recv_time`.  `x.received.unwrap()` inside the filter
is modelled with default 0 (every packet in `recv_packets` carries a
round-trip time in reachable states; the theorems hypothesise it); the
`Duration / u32` mean is truncating nanosecond division. -/
def Destination.meanRecvTime (d : Destination) (now time_avg : Nat) : Option Nat :=
  if d.recv_packets.isEmpty then none
  else
    let avg := d.recv_packets.filter
      (fun x => now - (x.sent + x.received.getD 0) < time_avg)
    let avg_len := max avg.length 1
    let tot_time := (avg.map (fun x => x.received.getD 0)).sum
    some (tot_time / avg_len)

/-- `transport::CommConfig`. -/
structure CommConfig where
  forget_inflight : Nat
  forget_lost : Nat
  forget_recv : Nat
  precision_mult : ℚ
deriving DecidableEq

/-- `transport::Comms` (the transport channel, the shared read buffer and
the reader thread handle are I/O / concurrency and are omitted; operations
take their inputs explicitly). -/
structure Comms where
  dest : List Destination
  config : CommConfig
  delay : Nat
deriving DecidableEq

/-- The per-destination body of `Comms::cleanup`: in-flight entries older
than `forget_recv` are *pushed* (cloned) onto `lost_packets`; then the
three retains with the `forget_inflight` / compound windows run. -/
def Destination.cleanupDest (c : CommConfig) (now : Nat) (dest : Destination) : Destination :=
  let moved := dest.inflight_packets.filter (fun x => sentAfter x now c.forget_recv)
  { dest with
    lost_packets := (dest.lost_packets ++ moved).filter
      (fun x => sentBefore x now (c.forget_inflight + c.forget_lost))
    inflight_packets := dest.inflight_packets.filter
      (fun x => sentBefore x now c.forget_inflight)
    recv_packets := dest.recv_packets.filter
      (fun x => sentBefore x now (c.forget_inflight + c.forget_recv)) }

/-- `Comms::cleanup`. -/
def Comms.cleanup (c : Comms) (now : Nat) : Comms :=
  { c with dest := c.dest.map (Destination.cleanupDest c.config now) }

/-- The ordering phase of `Comms::send_all`: each destination is keyed by
`last_pckt_sent.saturating_duration_since(now).as_micros() as i128`
(note: *without* the interval), enumerated, and sorted ascending by the
negated key.  `sort_unstable_by_key` is modelled by a stable insertion
sort — for slices of at most 20 elements Rust's unstable sort *is*
insertion sort, so ties keep iteration order there. -/
def sendAllOrder (dests : List Destination) (now : Nat) : List Nat :=
  let keyed := (dests.map (fun x => (((x.last_pckt_sent - now) / 1000 : Nat) : Int))).enum
  (List.insertionSort (fun a b => -a.2 ≤ -b.2) keyed).map Prod.fst

/-- The ordering the specification claims for `send_all`: ascending
`delay_until_eligible = max(0, last_sent_mono + interval − now)` (in
nanoseconds; the saturation is truncated subtraction), ties in iteration
order. -/
def specSendOrder (dests : List Destination) (now : Nat) : List Nat :=
  let keyed := (dests.map (fun x => (x.last_pckt_sent + x.interval - now : Nat))).enum
  (List.insertionSort (fun a b => a.2 ≤ b.2) keyed).map Prod.fst

/-- The `for (n, _) in dests` loop of `Comms::send_all`: try each
destination in the sorted order, stopping once `limit` is reached.  The
rng draws of the `k`-th visited destination are `rnd k`/`jit k`/`sq k`. -/
def sendAllLoop (now wall delay limit : Nat) (rnd jit sq : Nat → Nat) :
    List Nat → List Destination → Nat → Nat → Nat × List Destination
  | [], dests, count, _ => (count, dests)
  | n :: rest, dests, count, k =>
    match dests.get? n with
    | none => (count, dests)
    | some dn =>
      let (sentOk, dn1) := dn.send now wall delay (rnd k) (jit k) (sq k)
      let dests1 := dests.set n dn1
      if sentOk then
        if 0 < limit ∧ limit ≤ count + 1 then (count + 1, dests1)
        else sendAllLoop now wall delay limit rnd jit sq rest dests1 (count + 1) (k + 1)
      else sendAllLoop now wall delay limit rnd jit sq rest dests1 count (k + 1)

/-- `Comms::send_all`: sort, then try each destination with
`min_delay = delay / 2`. -/
def Comms.sendAll (c : Comms) (now wall limit : Nat) (rnd jit sq : Nat → Nat) :
    Nat × Comms :=
  let order := sendAllOrder c.dest now
  let (count, dests1) := sendAllLoop now wall (c.delay / 2) limit rnd jit sq order c.dest 0 0
  (count, { c with dest := dests1 })

/-! ### Reachable destination states

The abstract operations the daemon's main loop performs on one destination,
with their clock reads and rng draws made explicit; used to state the
queue-ownership invariant. -/

/-- One operation on a destination. -/
inductive DestOp where
  | sendOp (now wall min_delay rnd jitter new_seq : Nat)
  | recvOp (packet : PacketData) (now : Nat)
  | cleanupOp (now : Nat)
deriving DecidableEq

/-- The monotonic instant at which an operation runs. -/
def DestOp.time : DestOp → Nat
  | .sendOp now _ _ _ _ _ => now
  | .recvOp _ now => now
  | .cleanupOp now => now

/-- Apply one operation. -/
def applyDestOp (c : CommConfig) (d : Destination) : DestOp → Destination
  | .sendOp now wall md rnd jit sq => (d.send now wall md rnd jit sq).2
  | .recvOp p now => (d.recv p now).2
  | .cleanupOp now => Destination.cleanupDest c now d

/-- Run a sequence of operations. -/
def runDest (c : CommConfig) (d : Destination) (ops : List DestOp) : Destination :=
  ops.foldl (applyDestOp c) d

theorem floor_natCast_div_eight (n : Nat) :
    ⌊((n : ℚ) / 8)⌋ = ((n / 8 : Nat) : Int) := by
  have h := Rat.floor_natCast_div_natCast n 8
  exact_mod_cast h

theorem natLog2Go_spec (f : Nat) : ∀ (n : Nat), 1 ≤ n → n ≤ f →
    2 ^ natLog2Go f n ≤ n ∧ n < 2 ^ (natLog2Go f n + 1) := by
  induction f with
  | zero => intro n h1 hf; omega
  | succ f ih =>
    intro n h1 hf
    unfold natLog2Go
    by_cases h2 : n < 2
    · rw [if_pos h2]
      simp only [pow_zero, pow_one]
      omega
    · rw [if_neg h2]
      obtain ⟨ha, hb⟩ := ih (n / 2) (by omega) (by omega)
      constructor
      · calc 2 ^ (natLog2Go f (n / 2) + 1) = 2 ^ natLog2Go f (n / 2) * 2 := by ring
        _ ≤ n / 2 * 2 := by omega
        _ ≤ n := by omega
      · calc n < n / 2 * 2 + 2 := by omega
        _ ≤ (2 ^ (natLog2Go f (n / 2) + 1) - 1) * 2 + 2 := by
            have h3 : 1 ≤ 2 ^ (natLog2Go f (n / 2) + 1) := Nat.one_le_two_pow
            omega
        _ ≤ 2 ^ (natLog2Go f (n / 2) + 1 + 1) := by
            rw [pow_succ]
            have h3 : 1 ≤ 2 ^ (natLog2Go f (n / 2) + 1) := Nat.one_le_two_pow
            omega

theorem natLog2_spec (n : Nat) (h : 1 ≤ n) :
    2 ^ natLog2 n ≤ n ∧ n < 2 ^ (natLog2 n + 1) :=
  natLog2Go_spec n n h le_rfl

theorem toI64_of_small (i : Int) (h1 : -(2 ^ 63) ≤ i) (h2 : i < 2 ^ 63) :
    toI64 i = i := by
  unfold toI64
  omega

theorem roundHalfEvenQ_natCast (m : Nat) :
    roundHalfEvenQ ((m : ℚ)) = (m : Int) := by
  unfold roundHalfEvenQ
  rw [Int.floor_natCast]
  norm_num

theorem satF32toU32_of_floor (q : ℚ) (h0 : 0 ≤ q) (k : Nat)
    (hk : ⌊q⌋ = (k : Int)) (hsmall : k < 2 ^ 32) : satF32toU32 q = k := by
  unfold satF32toU32
  have hnum : 0 ≤ q.num := Rat.num_nonneg.mpr h0
  rw [Int.tdiv_eq_ediv hnum (Int.natCast_nonneg _), ← Rat.floor_def, hk]
  rw [if_neg (by omega)]
  rw [Int.toNat_natCast, Nat.min_def, if_pos (by omega)]

/-- A positive multiple of 1/8 below 2²¹ fits the 24-bit `f32` significand
exactly, so `roundF32Q` is the identity on it. -/
theorem roundF32Q_exact (n : Nat) (h8 : 8 ≤ n) (hn : n < 2 ^ 24) :
    roundF32Q ((n : ℚ) / 8) = (n : ℚ) / 8 := by
  have hq1 : (1 : ℚ) ≤ (n : ℚ) / 8 := by
    rw [le_div_iff₀ (by norm_num : (0 : ℚ) < 8)]
    calc (1 : ℚ) * 8 = ((8 : Nat) : ℚ) := by norm_num
    _ ≤ (n : ℚ) := by exact_mod_cast h8
  have hq0 : ¬((n : ℚ) / 8 ≤ 0) := by
    intro h
    linarith
  have hfloor : ⌊(n : ℚ) / 8⌋ = ((n / 8 : Nat) : Int) := floor_natCast_div_eight n
  obtain ⟨ha1, ha2⟩ := natLog2_spec (n / 8) (by omega)
  have ha20 : natLog2 (n / 8) ≤ 20 := by
    by_contra hcon
    have h21 : 2 ^ 21 ≤ 2 ^ natLog2 (n / 8) :=
      Nat.pow_le_pow_right (by norm_num) (by omega)
    omega
  have hqexp : qexp ((n : ℚ) / 8) = (natLog2 (n / 8) : Int) := by
    unfold qexp
    rw [if_pos hq1, hfloor, Int.toNat_natCast]
  unfold roundF32Q
  rw [if_neg hq0, hqexp]
  have hp1 : pow2z (23 - (natLog2 (n / 8) : Int))
      = ((2 ^ (23 - natLog2 (n / 8)) : Nat) : ℚ) := by
    unfold pow2z
    rw [if_pos (by omega)]
    have h23 : ((23 : Int) - (natLog2 (n / 8) : Int)).toNat
        = 23 - natLog2 (n / 8) := by omega
    rw [h23]
  have hsplit : 23 - natLog2 (n / 8) = 3 + (20 - natLog2 (n / 8)) := by omega
  have hmul : (n : ℚ) / 8 * ((2 ^ (23 - natLog2 (n / 8)) : Nat) : ℚ)
      = ((n * 2 ^ (20 - natLog2 (n / 8)) : Nat) : ℚ) := by
    rw [hsplit, pow_add]
    push_cast
    field_simp
    ring
  have hp2 : pow2z ((natLog2 (n / 8) : Int) - 23)
      = 1 / ((2 ^ (23 - natLog2 (n / 8)) : Nat) : ℚ) := by
    unfold pow2z
    rw [if_neg (by omega)]
    have h23 : (-((natLog2 (n / 8) : Int) - 23)).toNat
        = 23 - natLog2 (n / 8) := by omega
    rw [h23]
  rw [hp1, hmul, roundHalfEvenQ_natCast, hp2, hsplit, pow_add]
  push_cast
  field_simp
  ring

/-- The `f32` product at the C9 counterexample input: the exact value of
the `f32` nearest 0.005 is `10737418 / 2³¹ ≈ 0.004999999888`, its exact
product with 1000 is `671088625 / 2²⁷ ≈ 4.99999988`, and the nearest `f32`
to that product is exactly 5 (the scaled significand `10485759.765625`
rounds up to `10485760 = 5 · 2²¹`). -/
theorem roundF32Q_loss_eval :
    roundF32Q ((10737418 : ℚ) / 2147483648 * 1000) = 5 := by
  have he : (10737418 : ℚ) / 2147483648 * 1000 = (671088625 : ℚ) / 134217728 := by
    norm_num
  rw [he]
  have hq1 : (1 : ℚ) ≤ (671088625 : ℚ) / 134217728 := by norm_num
  have hfl : ⌊(671088625 : ℚ) / 134217728⌋ = (4 : Int) := by
    rw [show ((671088625 : ℚ) / 134217728)
        = (((671088625 : Nat) : ℚ) / ((134217728 : Nat) : ℚ)) from by norm_num,
      Rat.floor_natCast_div_natCast]
    norm_num
  have hqexp : qexp ((671088625 : ℚ) / 134217728) = 2 := by
    unfold qexp
    rw [if_pos hq1, hfl]
    decide
  unfold roundF32Q
  rw [if_neg (by norm_num), hqexp]
  have hp1 : pow2z (23 - 2) = ((2097152 : Nat) : ℚ) := by
    unfold pow2z
    rw [if_pos (by norm_num)]
    rw [show ((23 : Int) - 2).toNat = 21 from by decide]
    norm_num
  have hmul : (671088625 : ℚ) / 134217728 * ((2097152 : Nat) : ℚ)
      = (671088625 : ℚ) / 64 := by
    push_cast
    norm_num
  have hfl2 : ⌊(671088625 : ℚ) / 64⌋ = (10485759 : Int) := by
    rw [show ((671088625 : ℚ) / 64)
        = (((671088625 : Nat) : ℚ) / ((64 : Nat) : ℚ)) from by norm_num,
      Rat.floor_natCast_div_natCast]
    norm_num
  have hrhe : roundHalfEvenQ ((671088625 : ℚ) / 64) = 10485760 := by
    unfold roundHalfEvenQ
    rw [hfl2]
    rw [if_neg (by push_cast; norm_num), if_pos (by push_cast; norm_num)]
    norm_num
  have hp2 : pow2z (2 - 23) = 1 / ((2097152 : Nat) : ℚ) := by
    unfold pow2z
    rw [if_neg (by norm_num)]
    rw [show (-((2 : Int) - 23)).toNat = 21 from by decide]
    norm_num
  rw [hp1, hmul, hrhe, hp2]
  push_cast
  norm_num

/-- **C9** (corrected) — counterexample at a concrete input: the claimed
truncation `(loss × 1000) as integer` ignores that the product is computed
in `f32`.  At the real `f32` loss value nearest 0.005 — exactly
`10737418 / 2³¹ ≈ 0.004999999888` — the exact product with 1000 is below 5,
so the claim demands 4, but the `f32` product rounds to exactly 5.0 and the
program writes 5. -/
theorem C9_encode_stats_counterexample :
    FrameStats.encodeStats ("10.0.0.1") 3 2500000 150000000
        ((10737418 : ℚ) / 2147483648)
      = Except.ok [Tok.arr 5, Tok.str ("10.0.0.1"), Tok.int 3, Tok.int 2500,
          Tok.int 150, Tok.int 5] ∧
    satF32toU32 ((10737418 : ℚ) / 2147483648 * 1000) = 4 := by
  constructor
  · unfold FrameStats.encodeStats FrameStats.encode
    rw [roundF32Q_loss_eval]
    have h5 : satF32toU32 (5 : ℚ) = 5 := by
      apply satF32toU32_of_floor _ (by norm_num) 5 _ (by norm_num)
      rw [show (5 : ℚ) = ((5 : Nat) : ℚ) from by norm_num, Int.floor_natCast]
    rw [h5]
    decide
  · apply satF32toU32_of_floor _ (by norm_num) 4 _ (by norm_num)
    rw [show ((10737418 : ℚ) / 2147483648 * 1000)
        = (((10737418000 : Nat) : ℚ) / ((2147483648 : Nat) : ℚ)) from by norm_num,
      Rat.floor_natCast_div_natCast]
    norm_num

/-- **C9** (corrected, amended claim).  UDP stats encoding: for every
address, in-flight count, average RTT and last-reply age,
`FrameStats::encode_stats` produces the length-5 tagged tuple — address
string, in-flight as `u16`, average RTT in µs as `u32`, last-reply age in
ms as `u32`, and the `f32` product `packet_loss * 1000.0`
(round-to-nearest-even) truncated to an integer as `u32`.  When that
product is exactly representable — here: a multiple of 1/8 in `[1, 2²¹)` —
the field is exactly the claimed truncation of `loss × 1000`; in
particular `("10.0.0.1", 3, 2500µs, 150ms, 1.25%)` encodes as
`("10.0.0.1", 3, 2500, 150, 1250)`.  For `f32` loss values whose product
rounds across an integer (e.g. the `f32` nearest 0.005) the claimed
truncation is off by one. -/
theorem C9_encode_stats_amended (addr : String)
    (inflight_count avg_time last_reply : Nat) (loss : ℚ) (n : Nat)
    (h8 : 8 ≤ n) (hn : n < 2 ^ 24) (hrep : loss * 1000 = (n : ℚ) / 8) :
    (∀ (l : ℚ), FrameStats.encodeStats addr inflight_count avg_time last_reply l
      = Except.ok [Tok.arr 5, Tok.str addr,
          Tok.int ((wrapU16 inflight_count : Nat) : Int),
          Tok.int ((wrapU32 (avg_time / 1000) : Nat) : Int),
          Tok.int ((wrapU32 (last_reply / 1000000) : Nat) : Int),
          Tok.int ((satF32toU32 (roundF32Q (l * 1000)) : Nat) : Int)]) ∧
    FrameStats.encodeStats addr inflight_count avg_time last_reply loss
      = Except.ok [Tok.arr 5, Tok.str addr,
          Tok.int ((wrapU16 inflight_count : Nat) : Int),
          Tok.int ((wrapU32 (avg_time / 1000) : Nat) : Int),
          Tok.int ((wrapU32 (last_reply / 1000000) : Nat) : Int),
          Tok.int ((satF32toU32 (loss * 1000) : Nat) : Int)] ∧
    FrameStats.encodeStats ("10.0.0.1") 3 2500000 150000000 (5 / 4)
      = Except.ok [Tok.arr 5, Tok.str ("10.0.0.1"), Tok.int 3, Tok.int 2500,
          Tok.int 150, Tok.int 1250] := by
  refine ⟨fun l => rfl, ?_, ?_⟩
  · have hex : roundF32Q (loss * 1000) = loss * 1000 := by
      rw [hrep]
      exact roundF32Q_exact n h8 hn
    unfold FrameStats.encodeStats FrameStats.encode
    rw [hex]
  · have h1 : ((5 : ℚ) / 4 * 1000) = ((10000 : Nat) : ℚ) / 8 := by norm_num
    have hex : roundF32Q ((5 : ℚ) / 4 * 1000) = (5 : ℚ) / 4 * 1000 := by
      rw [h1]
      exact roundF32Q_exact 10000 (by norm_num) (by norm_num)
    unfold FrameStats.encodeStats FrameStats.encode
    rw [hex, show ((5 : ℚ) / 4 * 1000) = (((1250 : Nat)) : ℚ) from by norm_num]
    have h2 : satF32toU32 ((1250 : Nat) : ℚ) = 1250 := by
      unfold satF32toU32
      rw [Rat.num_natCast, Rat.den_natCast]
      decide
    rw [h2]
    decide

/-- Witness for `C9_encode_stats_amended`, at the concrete S3 instance
(`loss·1000 = 1250 = 10000/8`, exactly representable). -/
theorem C9_encode_stats_amended_witness :
    FrameStats.encodeStats ("10.0.0.1") 3 2500000 150000000 (5 / 4)
      = Except.ok [Tok.arr 5, Tok.str ("10.0.0.1"), Tok.int 3, Tok.int 2500,
          Tok.int 150, Tok.int 1250] :=
  (C9_encode_stats_amended ("10.0.0.1") 3 2500000 150000000 (5 / 4) 10000
    (by norm_num) (by norm_num) (by norm_num)).2.2

/-- **C10** (confirmed).  Frame property of the matcher: an inbound packet
whose ident differs from the destination's returns `none` from
`Destination::recv` and leaves every field of the destination unchanged. -/
theorem C10_ident_mismatch_frame (d : Destination) (p : PacketData) (now : Nat)
    (h : p.ident ≠ d.ident) : d.recv p now = (none, d) := by
  unfold Destination.recv
  rw [if_pos (fun he => h he.symm)]

/-- Witness for `C10_ident_mismatch_frame`: a concrete destination with
ident 7 and a packet with ident 9. -/
theorem C10_ident_mismatch_frame_witness :
    (Destination.new ("1.2.3.4") 5 0 7).recv
        { seqn := 1, ident := 9, addr := "1.2.3.4", received := some 3 } 0
      = (none, Destination.new ("1.2.3.4") 5 0 7) :=
  C10_ident_mismatch_frame (Destination.new ("1.2.3.4") 5 0 7)
    { seqn := 1, ident := 9, addr := "1.2.3.4", received := some 3 } 0 (by decide)

theorem option_ite_isSome_or {α : Type} (o : Option α) (c : α) :
    (if o.isSome then o else some c) = o.or (some c) := by
  cases o <;> rfl

/-- Full characterisation of the `Destination::recv` scan loop when the
inbound packet carries an arrival stamp `arr`: entries are updated
pointwise, the fully matching entries are promoted in order, the return
value reports the last full match, and the counter their number. -/
theorem recvScan_eq (p : PacketData) (arr now : Nat) (hp : p.received = some arr)
    (l : List PacketSent) :
    recvScan p now l =
      (l.map (fun s => if isFullMatch p arr s
          then { s with received := some (arr - s.sent) } else s),
       (l.filter (isFullMatch p arr)).map
          (fun s => { s with received := some (arr - s.sent) }),
       ((l.filter (isFullMatch p arr)).reverse.head?).map
          (fun s => (p.addr, arr - s.sent)),
       (l.filter (isFullMatch p arr)).length) := by
  induction l with
  | nil => simp [recvScan]
  | cons s t ih =>
    by_cases h1 : s.data.seqn = p.seqn ∧ s.received = none
    · by_cases h2 : s.sent ≤ arr
      · have hfm : isFullMatch p arr s = true := by
          simp [isFullMatch, h1.1, h1.2, h2]
        simp only [recvScan, hp, h1, if_true, ite_true, h2, ih, hfm,
          List.map_cons, List.filter_cons_of_pos, List.reverse_cons,
          List.head?_append, List.length_cons, option_ite_isSome_or]
        cases hh : (t.filter (isFullMatch p arr)).reverse.head? <;>
          simp [Option.or, hh]
      · have hfm : isFullMatch p arr s = false := by
          simp [isFullMatch, h2]
        simp only [recvScan, hp, h1, h2, ite_false, ih, ite_self,
          List.map_cons, hfm, Bool.false_eq_true, not_false_iff,
          List.filter_cons_of_neg]
    · have hfm : isFullMatch p arr s = false := by
        unfold isFullMatch
        rw [decide_eq_false_iff_not]
        intro hc
        exact h1 ⟨hc.1, hc.2.1⟩
      simp only [recvScan, h1, if_false, ite_false, ih, ite_self,
        List.map_cons, hfm, Bool.false_eq_true, not_false_iff,
        List.filter_cons_of_neg]

/-- When no in-flight entry carries the packet's sequence number with an
unset round-trip, the scan is the identity. -/
theorem recvScan_noop (p : PacketData) (now : Nat) (l : List PacketSent)
    (h : ∀ s ∈ l, s.data.seqn = p.seqn → s.received ≠ none) :
    recvScan p now l = (l, [], none, 0) := by
  induction l with
  | nil => simp [recvScan]
  | cons s t ih =>
    have h1 : ¬(s.data.seqn = p.seqn ∧ s.received = none) := fun hc =>
      h s (by simp) hc.1 hc.2
    simp only [recvScan, h1, if_false, ite_false]
    rw [ih (fun x hx => h x (by simp [hx]))]

theorem map_reverse_head_isSome {α β : Type} (f : α → β) (L : List α) :
    (Option.map f L.reverse.head?).isSome = true ↔ L ≠ [] := by
  cases hL : L.reverse.head? with
  | none =>
      rw [List.head?_eq_none_iff, List.reverse_eq_nil_iff] at hL
      simp [hL]
  | some a =>
      simp only [Option.map_some', Option.isSome_some, true_iff]
      intro h
      rw [h] at hL
      exact Option.noConfusion hL

/-- A reply that can no longer match anything (every entry with its
sequence number already has its round-trip set) changes nothing. -/
theorem recv_noop_of_no_unset_match (d : Destination) (p : PacketData) (now : Nat)
    (h : ∀ s ∈ d.inflight_packets, s.data.seqn = p.seqn → s.received ≠ none) :
    d.recv p now = (none, d) := by
  unfold Destination.recv
  by_cases hid : d.ident ≠ p.ident
  · rw [if_pos hid]
  · rw [if_neg hid]
    rw [recvScan_noop p now d.inflight_packets h]
    cases d
    simp

/-- **C2** (corrected) — counterexample to the claim as stated: a reply
with matching ident, matching sequence number and unset rtt on the unique
in-flight entry, but whose arrival stamp (3) precedes the send instant
(10): `checked_duration_since` fails, so no entry is promoted and the
destination is left unchanged, contradicting the claimed "matches … iff"
and "exactly one in-flight entry is promoted". -/
theorem C2_matcher_counterexample :
    let d : Destination :=
      ⟨"h", 1, "h", 1, 100, 0, [⟨⟨5, 100, "h", none⟩, 10, 0, none⟩], [], [], 0, 0⟩
    let p : PacketData := ⟨5, 100, "h", some 3⟩
    (p.ident = d.ident ∧
      ∃ s ∈ d.inflight_packets, s.data.seqn = p.seqn ∧ s.received = none) ∧
    (d.recv p 0).1 = none ∧ (d.recv p 0).2 = d := by decide

/-- **C2** (corrected, amended claim).  With a reply carrying arrival stamp
`arr`: (a) `recv` reports a match iff the ident matches and some in-flight
entry has the packet's sequence number, an unset rtt *and* `sent ≤ arr`
(the `checked_duration_since` guard the original claim omits); (b) when
exactly one entry fully matches (and the in-flight queue is well-formed,
all rtts unset), exactly that entry is promoted to the received queue with
`rtt = arr − sent` (non-negative by construction) and removed from the
in-flight queue; (c) a duplicate reply delivered when every entry with
that sequence number already has its rtt set — in particular after the
match, when the sequence number was unique — produces no state change. -/
theorem C2_matcher_amended (d : Destination) (p : PacketData) (arr now : Nat)
    (hp : p.received = some arr) :
    ((d.recv p now).1.isSome ↔ d.ident = p.ident ∧
        ∃ s ∈ d.inflight_packets,
          s.data.seqn = p.seqn ∧ s.received = none ∧ s.sent ≤ arr) ∧
    (∀ s : PacketSent, d.ident = p.ident →
      d.inflight_packets.filter (isFullMatch p arr) = [s] →
      (∀ x ∈ d.inflight_packets, x.received = none) →
      (d.recv p now).2.recv_packets
          = d.recv_packets ++ [{ s with received := some (arr - s.sent) }] ∧
      (d.recv p now).2.inflight_packets
          = d.inflight_packets.filter (fun x => ! isFullMatch p arr x) ∧
      (d.recv p now).1 = some (p.addr, arr - s.sent) ∧
      (d.recv p now).2.recv_count = d.recv_count + 1) ∧
    (∀ d2 : Destination,
      (∀ s ∈ d2.inflight_packets, s.data.seqn = p.seqn → s.received ≠ none) →
      d2.recv p now = (none, d2)) := by
  refine ⟨?_, ?_, fun d2 h2 => recv_noop_of_no_unset_match d2 p now h2⟩
  · unfold Destination.recv
    by_cases hid : d.ident ≠ p.ident
    · rw [if_pos hid]
      simp only [Option.isSome_none, Bool.false_eq_true, false_iff]
      intro hc
      exact hid hc.1
    · rw [if_neg hid]
      push_neg at hid
      rw [recvScan_eq p arr now hp]
      simp only [hid, true_and]
      rw [map_reverse_head_isSome]
      constructor
      · intro hne
        rcases List.exists_mem_of_ne_nil _ hne with ⟨s, hs⟩
        have hsl := List.mem_of_mem_filter hs
        have hsf := List.of_mem_filter hs
        simp only [isFullMatch, decide_eq_true_eq] at hsf
        exact ⟨s, hsl, hsf⟩
      · intro ⟨s, hsl, hsf⟩
        have hmem : s ∈ d.inflight_packets.filter (isFullMatch p arr) := by
          rw [List.mem_filter]
          exact ⟨hsl, by simp [isFullMatch, hsf]⟩
        intro hnil
        rw [hnil] at hmem
        exact absurd hmem (List.not_mem_nil s)
  · intro s hid hfilter hnone
    unfold Destination.recv
    rw [if_neg (fun hne => hne hid)]
    rw [recvScan_eq p arr now hp]
    refine ⟨by simp [hfilter], ?_, by simp [hfilter], by simp [hfilter]⟩
    simp only [hfilter, List.map_cons, List.map_nil, List.reverse_cons,
      List.reverse_nil, List.nil_append, List.head?_cons, Option.map_some',
      Option.isSome_some, if_true, ite_true]
    rw [List.filter_map]
    have hcong : ∀ x ∈ d.inflight_packets,
        ((fun y : PacketSent => decide (y.received = none)) ∘
          (fun y : PacketSent => if isFullMatch p arr y
            then { y with received := some (arr - y.sent) } else y)) x
        = (! isFullMatch p arr x) := by
      intro x hx
      by_cases hfm : isFullMatch p arr x
      · simp [Function.comp, hfm]
      · simp [Function.comp, hfm, hnone x hx]
    rw [List.filter_congr hcong]
    conv_rhs => rw [← List.map_id
      (List.filter (fun x => ! isFullMatch p arr x) d.inflight_packets)]
    refine List.map_congr_left (fun x hx => ?_)
    have hmem := List.of_mem_filter hx
    have hfm : isFullMatch p arr x = false := by
      cases hh : isFullMatch p arr x
      · rfl
      · rw [hh] at hmem; simp at hmem
    simp [hfm]

/-- Witness for `C2_matcher_amended`: the specification's matcher scenario
S4 — ident `0x1234`, one in-flight entry `(seq 7, sent T0 = 1000)`, a reply
arriving 3 ms later. -/
theorem C2_matcher_amended_witness :
    ((Destination.recv
        ⟨"10.0.0.1", 1, "10.0.0.1", 1, 4660, 0,
          [⟨⟨7, 4660, "10.0.0.1", none⟩, 1000, 0, none⟩], [], [], 1, 0⟩
        ⟨7, 4660, "10.0.0.1", some 3001000⟩ 0).1.isSome ↔
      (⟨"10.0.0.1", 1, "10.0.0.1", 1, 4660, 0,
          [⟨⟨7, 4660, "10.0.0.1", none⟩, 1000, 0, none⟩], [], [], 1, 0⟩ :
            Destination).ident
          = (⟨7, 4660, "10.0.0.1", some 3001000⟩ : PacketData).ident ∧
      ∃ s ∈ (⟨"10.0.0.1", 1, "10.0.0.1", 1, 4660, 0,
          [⟨⟨7, 4660, "10.0.0.1", none⟩, 1000, 0, none⟩], [], [], 1, 0⟩ :
            Destination).inflight_packets,
        s.data.seqn = (⟨7, 4660, "10.0.0.1", some 3001000⟩ : PacketData).seqn ∧
        s.received = none ∧ s.sent ≤ 3001000) :=
  (C2_matcher_amended
    ⟨"10.0.0.1", 1, "10.0.0.1", 1, 4660, 0,
      [⟨⟨7, 4660, "10.0.0.1", none⟩, 1000, 0, none⟩], [], [], 1, 0⟩
    ⟨7, 4660, "10.0.0.1", some 3001000⟩ 3001000 0 rfl).1

/-- **C7** (corrected) — counterexample to the claim as stated: one
received packet outside the window, so `received_last` is empty, yet
`mean_recv_time` returns `some 0` (the queue is non-empty, and the code
divides by `max(len, 1)`), not `none`. -/
theorem C7_mean_recv_time_counterexample :
    let d : Destination :=
      ⟨"h", 1, "h", 1, 5, 0, [], [⟨⟨1, 5, "h", none⟩, 0, 0, some 10⟩], [], 0, 0⟩
    d.receivedLast 1000000000 1000 = [] ∧
    d.meanRecvTime 1000000000 1000 = some 0 := by decide

/-- **C7** (corrected, amended claim).  `mean_recv_time(window)` returns
`none` exactly when the *whole* `recv_packets` queue is empty (not when
`received_last(window)` is); otherwise it returns the truncating integer
mean of the rtts of `received_last(window)` with the divisor clamped to at
least 1 (hence `some 0` when that set is empty). -/
theorem C7_mean_recv_time_amended (d : Destination) (now w : Nat)
    (_hall : ∀ s ∈ d.recv_packets, s.received ≠ none) :
    (d.meanRecvTime now w = none ↔ d.recv_packets = []) ∧
    (d.recv_packets ≠ [] →
      d.meanRecvTime now w = some
        (((d.receivedLast now w).map (fun x => x.received.getD 0)).sum
          / max (d.receivedLast now w).length 1)) := by
  unfold Destination.meanRecvTime Destination.receivedLast
  constructor
  · by_cases h : d.recv_packets.isEmpty
    · rw [if_pos h]
      simp [List.isEmpty_iff] at h
      simp [h]
    · rw [if_neg h]
      simp [List.isEmpty_iff] at h
      simp [h]
  · intro hne
    rw [if_neg (by simp [List.isEmpty_iff, hne])]
    rfl

theorem insertionSort_id_of_rel {α : Type} (r : α → α → Prop) [DecidableRel r]
    (l : List α) (h : ∀ x ∈ l, ∀ y ∈ l, r x y) : List.insertionSort r l = l := by
  induction l with
  | nil => rfl
  | cons x t ih =>
    rw [List.insertionSort,
      ih (fun a ha b hb => h a (List.mem_cons_of_mem x ha) b (List.mem_cons_of_mem x hb))]
    cases t with
    | nil => rfl
    | cons y t2 =>
      rw [List.orderedInsert, if_pos (h x (by simp) y (by simp))]

theorem toU32I_of_small (m : Int) (h1 : 0 ≤ m) (h2 : m < 2 ^ 32) :
    toU32I m = m.toNat := by
  unfold toU32I
  omega

theorem toU64I_natCast_small (n : Nat) (h : n < 2 ^ 64) : toU64I (n : Int) = n := by
  unfold toU64I
  omega

theorem toI64_toU64I (i : Int) (h1 : -(2 ^ 63) ≤ i) (h2 : i < 2 ^ 63) :
    toI64 ((toU64I i : Nat) : Int) = i := by
  unfold toI64 toU64I
  omega

/-- **C8** (confirmed).  Codec header acceptance: `try_from_header` errors
on every header whose schema string differs from "FDCodec" and on every
header (with the right schema) whose version exceeds 101; every well-formed
five-field header with schema "FDCodec" and version ≤ 101 is accepted,
yielding the encoded config; a header written by `try_get_header`
(version 101) is accepted and the otherwise-identical version-102 header
is rejected. -/
theorem C8_codec_header (header : List (String × Variant)) (cfg : FDCodecCfg)
    (hlo : -(2 ^ 63) ≤ cfg.full_encode_secs) (hhi : cfg.full_encode_secs < 2 ^ 63) :
    (∀ s : String, strMapGet header ("schema") = .ok (Variant.str s) →
      s ≠ headerSchema →
      FDCodecState.tryFromHeaderMap header
        = .error (DErr.unexpectedData ("Incompatible header, wrong file format"))) ∧
    (∀ v : Int, strMapGet header ("schema") = .ok (Variant.str headerSchema) →
      strMapGet header ("version") = .ok (Variant.int v) →
      headerVersion < toU64I v →
      FDCodecState.tryFromHeaderMap header
        = .error (DErr.unexpectedData ("File format has a newer, unsupported version"))) ∧
    (∀ (ver fes : Nat) (llq : Option LinearLogQuantizer) (b : Bool),
      ver ≤ headerVersion → fes < 2 ^ 64 →
      FDCodecState.tryFromHeaderMap
          [(("schema"), Variant.str headerSchema),
           (("version"), Variant.int (ver : Int)),
           (("full_encode_secs"), Variant.int (fes : Int)),
           (("recv_llq"), match llq with
             | some l => Variant.float l.precision
             | none => Variant.nullV),
           (("delta_enc"), Variant.bool b)]
        = .ok { full_encode_secs := toI64 (fes : Int), recv_llq := llq,
                delta_enc := b }) ∧
    (FDCodecState.tryFromHeader (FDCodecState.tryGetHeader cfg) = .ok cfg) ∧
    (FDCodecState.tryFromHeader
        [Tok.mapLen 5, Tok.str ("schema"), Tok.str headerSchema,
         Tok.str ("version"), Tok.int 102,
         Tok.str ("full_encode_secs"), Tok.int 60,
         Tok.str ("recv_llq"), Tok.nil,
         Tok.str ("delta_enc"), Tok.bool false]
      = .error (DErr.unexpectedData ("File format has a newer, unsupported version"))) := by
  refine ⟨?_, ?_, ?_, ?_, by decide⟩
  · intro s hs hne
    unfold FDCodecState.tryFromHeaderMap
    rw [hs]
    dsimp only [Variant.strE]
    rw [if_pos hne]
  · intro v hs hv hver
    unfold FDCodecState.tryFromHeaderMap
    rw [hs]
    dsimp only [Variant.strE]
    rw [if_neg (fun hne => hne rfl), hv]
    dsimp only [Variant.intE]
    rw [if_pos hver]
  · intro ver fes llq b hver hfes
    unfold FDCodecState.tryFromHeaderMap
    simp only [strMapGet, List.find?, String.reduceBEq, beq_self_eq_true,
      Variant.strE, Variant.intE, ne_eq, not_true_eq_false, if_false]
    rw [toU64I_natCast_small ver (by unfold headerVersion at hver; omega)]
    rw [if_neg (by unfold headerVersion at hver ⊢; omega)]
    cases llq <;> rfl
  · cases hllq : cfg.recv_llq with
    | none =>
      unfold FDCodecState.tryFromHeader FDCodecState.tryGetHeader
      rw [hllq]
      simp only [List.append_assoc, List.cons_append, List.nil_append]
      simp only [variantReadFrom, List.length_cons, List.length_nil, variantRead,
        variantReadMap, mapInsert, Variant.beq, List.any_nil, List.any_cons,
        Bool.or_false, String.reduceBEq, Bool.false_eq_true, if_false,
        List.nil_append, List.cons_append, intoStrHashmap]
      unfold FDCodecState.tryFromHeaderMap
      simp only [strMapGet, List.find?, String.reduceBEq, beq_self_eq_true,
        Variant.strE, Variant.intE]
      rw [if_neg (fun hne => hne rfl)]
      rw [if_neg (by unfold headerVersion; decide)]
      rw [toI64_toU64I cfg.full_encode_secs hlo hhi]
      cases cfg
      simp at hllq
      rw [hllq]
    | some llq =>
      unfold FDCodecState.tryFromHeader FDCodecState.tryGetHeader
      rw [hllq]
      simp only [List.append_assoc, List.cons_append, List.nil_append]
      simp only [variantReadFrom, List.length_cons, List.length_nil, variantRead,
        variantReadMap, mapInsert, Variant.beq, List.any_nil, List.any_cons,
        Bool.or_false, String.reduceBEq, Bool.false_eq_true, if_false,
        List.nil_append, List.cons_append, intoStrHashmap]
      unfold FDCodecState.tryFromHeaderMap
      simp only [strMapGet, List.find?, String.reduceBEq, beq_self_eq_true,
        Variant.strE, Variant.intE]
      rw [if_neg (fun hne => hne rfl)]
      rw [if_neg (by unfold headerVersion; decide)]
      rw [toI64_toU64I cfg.full_encode_secs hlo hhi]
      cases cfg
      simp at hllq
      rw [hllq]
      rfl

theorem wrapU64_small (n : Nat) (h : n < 2 ^ 64) : wrapU64 n = n := by
  unfold wrapU64
  omega

theorem satU64_small (i : Int) (h0 : 0 ≤ i) (h1 : i < 2 ^ 63) :
    satU64 i = i.toNat := by
  unfold satU64
  rw [if_neg (by omega), min_eq_left (by omega)]

theorem variantReadFrom_int (v : Int) (rest : List Tok) :
    variantReadFrom (Tok.int v :: rest) = .ok (.int v, rest) := rfl

theorem variantReadFrom_nil_tok (rest : List Tok) :
    variantReadFrom (Tok.nil :: rest) = .ok (.nullV, rest) := rfl

theorem readUsizeTok_int (v : Int) (rest : List Tok) (h0 : 0 ≤ v) (h1 : v < 2 ^ 64) :
    readUsizeTok (Tok.int v :: rest) = .ok (v, rest) := by
  unfold readUsizeTok readIntRange
  dsimp only
  rw [if_pos ⟨h0, by omega⟩]

theorem readI64Tok_int (v : Int) (rest : List Tok) (h0 : -(2 ^ 63) ≤ v)
    (h1 : v < 2 ^ 63) :
    readI64Tok (Tok.int v :: rest) = .ok (v, rest) := by
  unfold readI64Tok readIntRange
  dsimp only
  rw [if_pos ⟨h0, by omega⟩]

theorem variantReadN_ints (l : List Int) : ∀ (fuel : Nat) (rest : List Tok),
    2 * l.length + 1 ≤ fuel →
    variantReadN fuel l.length (l.map Tok.int ++ rest) = .ok (l.map Variant.int, rest) := by
  induction l with
  | nil =>
    intro fuel rest h
    cases fuel with
    | zero => omega
    | succ f => rfl
  | cons v t ih =>
    intro fuel rest h
    cases fuel with
    | zero => omega
    | succ f =>
      cases f with
      | zero => exfalso; simp only [List.length_cons] at h; omega
      | succ f2 =>
        simp only [List.map_cons, List.cons_append, List.length_cons]
        show (match variantRead (f2 + 1) (Tok.int v :: (t.map Tok.int ++ rest)) with
          | Except.error e => Except.error e
          | Except.ok (x, rest1) =>
            match variantReadN (f2 + 1) t.length rest1 with
            | Except.error e => Except.error e
            | Except.ok (xs, rest2) => Except.ok (x :: xs, rest2))
          = Except.ok (Variant.int v :: t.map Variant.int, rest)
        rw [show variantRead (f2 + 1) (Tok.int v :: (t.map Tok.int ++ rest))
          = Except.ok (Variant.int v, t.map Tok.int ++ rest) from rfl]
        dsimp only
        rw [ih (f2 + 1) rest (by simp only [List.length_cons] at h; omega)]

theorem variantReadFrom_arr_ints (l : List Int) (n : Nat) (hn : n = l.length) :
    variantReadFrom (Tok.arr n :: l.map Tok.int) = .ok (.arrV (l.map Variant.int), []) := by
  subst hn
  unfold variantReadFrom
  show (match variantReadN (2 * (Tok.arr l.length :: l.map Tok.int).length + 2 - 1)
      l.length (l.map Tok.int) with
    | Except.error e => Except.error e
    | Except.ok (xs, rest1) => Except.ok (Variant.arrV xs, rest1))
    = Except.ok (Variant.arrV (l.map Variant.int), [])
  rw [show l.map Tok.int = l.map Tok.int ++ [] by simp]
  rw [variantReadN_ints l _ [] (by simp only [List.length_cons, List.length_append,
    List.length_map, List.length_nil]; omega)]

theorem variantIntList_map (l : List Int) :
    variantIntList (l.map Variant.int) = .ok l := by
  induction l with
  | nil => rfl
  | cons v t ih =>
    simp only [List.map_cons, variantIntList, ih]

theorem deltaEncodeRecv_length (prev : Int) (l : List Int) :
    (deltaEncodeRecv prev l).length = l.length := by
  induction l generalizing prev with
  | nil => rfl
  | cons v t ih => simp [deltaEncodeRecv, ih]

theorem recvDelta_roundtrip (l : List Int) : ∀ (prev : Int), 0 ≤ prev → prev < 2 ^ 63 →
    (∀ x ∈ l, 0 ≤ x ∧ x < 2 ^ 63) →
    recvPrefixSums prev (deltaEncodeRecv prev l) = l := by
  induction l with
  | nil => intro prev _ _ _; rfl
  | cons v t ih =>
    intro prev hp0 hp1 h
    have hv := h v (by simp)
    simp only [deltaEncodeRecv, recvPrefixSums]
    have h1 : toI64 (v - prev) = v - prev :=
      toI64_of_small _ (by omega) (by omega)
    rw [h1]
    have h2 : v - prev + prev = v := by ring
    rw [h2, toI64_of_small v (by omega) (by omega)]
    rw [ih v hv.1 hv.2 (fun x hx => h x (by simp [hx]))]

theorem toU32I_natCast_small (n : Nat) (h : n < 2 ^ 32) : toU32I (n : Int) = n := by
  unfold toU32I
  omega

theorem rmp_roundtrip (tso : Option Int) (ms : Nat) (infl lost : Int) (len : Nat)
    (l : List Int)
    (hts : ∀ ts, tso = some ts → 0 ≤ ts ∧ ts < 2 ^ 63)
    (hms : ms < 2 ^ 32)
    (hinfl : 0 ≤ infl) (hlost : 0 ≤ lost) (hsum : infl + lost < 2 ^ 63)
    (hlen : len < 2 ^ 64) (hl7 : l.length = 7)
    (hl : 0 < len → ∀ x ∈ l, 0 ≤ x ∧ x < 2 ^ 63) :
    ∃ toks, FrameDataQ.tryToRmp
        ⟨tso, (match tso with
          | some _ => SubSecType.Abs ms
          | none => SubSecType.Delta ms), infl, lost, len, l⟩ = some toks ∧
      FrameDataQ.tryFromRmp toks
        = .ok (⟨tso, (match tso with
            | some _ => SubSecType.Abs ms
            | none => SubSecType.Delta ms), infl, lost, len,
            if 0 < len then l else List.replicate 7 (-1)⟩, []) := by
  cases tso with
  | some ts =>
    obtain ⟨hts0, hts1⟩ := hts ts rfl
    refine ⟨_, rfl, ?_⟩
    dsimp only
    rw [satU64_small infl hinfl (by omega), satU64_small lost hlost (by omega),
      wrapU64_small (infl.toNat + lost.toNat) (by omega),
      wrapU64_small len hlen]
    by_cases hpos : 0 < infl.toNat + lost.toNat
    · rw [if_pos hpos]
      by_cases hlpos : 0 < len
      · rw [if_pos hlpos]
        simp only [List.cons_append, List.nil_append, List.append_nil]
        unfold FrameDataQ.tryFromRmp
        rw [variantReadFrom_int]
        dsimp only
        rw [readUsizeTok_int _ _ (by omega) (by omega)]
        dsimp only
        rw [readI64Tok_int _ _ (by omega) (by omega)]
        dsimp only
        rw [if_neg (by omega)]
        rw [if_neg (by omega)]
        rw [readUsizeTok_int _ _ (by omega) (by omega)]
        dsimp only
        rw [readUsizeTok_int _ _ (by omega) (by omega)]
        dsimp only
        rw [if_pos (by simp only [Int.toNat_natCast]; omega)]
        rw [variantReadFrom_arr_ints _ 7 (by rw [deltaEncodeRecv_length, hl7])]
        dsimp only
        rw [if_neg (by simp only [List.length_map, deltaEncodeRecv_length, hl7]; omega)]
        rw [variantIntList_map]
        dsimp only
        rw [recvDelta_roundtrip l 0 le_rfl (by norm_num) (hl hlpos)]
        simp only [hl7, Nat.sub_self, List.replicate, List.append_nil,
          Option.some.injEq, Prod.mk.injEq, FrameDataQ.mk.injEq]
        rw [toI64_toU64I ts (by omega) hts1, toU32I_natCast_small ms hms,
          Int.toNat_of_nonneg hinfl, Int.toNat_of_nonneg hlost, Int.toNat_natCast,
          if_pos hlpos]
      · rw [if_neg hlpos]
        simp only [List.cons_append, List.nil_append, List.append_nil]
        unfold FrameDataQ.tryFromRmp
        rw [variantReadFrom_int]
        dsimp only
        rw [readUsizeTok_int _ _ (by omega) (by omega)]
        dsimp only
        rw [readI64Tok_int _ _ (by omega) (by omega)]
        dsimp only
        rw [if_neg (by omega)]
        rw [if_neg (by omega)]
        rw [readUsizeTok_int _ _ (by omega) (by omega)]
        dsimp only
        rw [readUsizeTok_int _ _ (by omega) (by omega)]
        dsimp only
        rw [if_neg (by simp only [Int.toNat_natCast]; omega)]
        rw [toI64_toU64I ts (by omega) hts1, toU32I_natCast_small ms hms,
          Int.toNat_of_nonneg hinfl, Int.toNat_of_nonneg hlost, Int.toNat_natCast,
          if_neg hlpos]
    · have hi0 : infl = 0 := by omega
      have hlo0 : lost = 0 := by omega
      subst hi0
      subst hlo0
      rw [if_neg hpos]
      by_cases hlpos : 0 < len
      · rw [if_pos hlpos]
        simp only [List.cons_append, List.nil_append, List.append_nil]
        unfold FrameDataQ.tryFromRmp
        rw [variantReadFrom_int]
        dsimp only
        rw [readUsizeTok_int _ _ (by omega) (by omega)]
        dsimp only
        rw [readI64Tok_int _ _ (by omega) (by omega)]
        dsimp only
        simp only [reduceIte]
        rw [readUsizeTok_int _ _ (by omega) (by omega)]
        dsimp only
        rw [if_pos (by simp only [Int.toNat_natCast]; omega)]
        rw [variantReadFrom_arr_ints _ 7 (by rw [deltaEncodeRecv_length, hl7])]
        dsimp only
        rw [if_neg (by simp only [List.length_map, deltaEncodeRecv_length, hl7]; omega)]
        rw [variantIntList_map]
        dsimp only
        rw [recvDelta_roundtrip l 0 le_rfl (by norm_num) (hl hlpos)]
        simp only [hl7, Nat.sub_self, List.replicate, List.append_nil]
        rw [toI64_toU64I ts (by omega) hts1, toU32I_natCast_small ms hms,
          Int.toNat_natCast, if_pos hlpos]
      · rw [if_neg hlpos]
        simp only [List.cons_append, List.nil_append, List.append_nil]
        unfold FrameDataQ.tryFromRmp
        rw [variantReadFrom_int]
        dsimp only
        rw [readUsizeTok_int _ _ (by omega) (by omega)]
        dsimp only
        rw [readI64Tok_int _ _ (by omega) (by omega)]
        dsimp only
        simp only [reduceIte]
        rw [readUsizeTok_int _ _ (by omega) (by omega)]
        dsimp only
        rw [if_neg (by simp only [Int.toNat_natCast]; omega)]
        rw [toI64_toU64I ts (by omega) hts1, toU32I_natCast_small ms hms,
          Int.toNat_natCast, if_neg hlpos]
  | none =>
    refine ⟨_, rfl, ?_⟩
    dsimp only
    rw [satU64_small infl hinfl (by omega), satU64_small lost hlost (by omega),
      wrapU64_small (infl.toNat + lost.toNat) (by omega),
      wrapU64_small len hlen]
    by_cases hpos : 0 < infl.toNat + lost.toNat
    · rw [if_pos hpos]
      by_cases hlpos : 0 < len
      · rw [if_pos hlpos]
        simp only [List.cons_append, List.nil_append, List.append_nil]
        unfold FrameDataQ.tryFromRmp
        rw [variantReadFrom_nil_tok]
        dsimp only
        rw [readUsizeTok_int _ _ (by omega) (by omega)]
        dsimp only
        rw [readI64Tok_int _ _ (by omega) (by omega)]
        dsimp only
        rw [if_neg (by omega)]
        rw [if_neg (by omega)]
        rw [readUsizeTok_int _ _ (by omega) (by omega)]
        dsimp only
        rw [readUsizeTok_int _ _ (by omega) (by omega)]
        dsimp only
        rw [if_pos (by simp only [Int.toNat_natCast]; omega)]
        rw [variantReadFrom_arr_ints _ 7 (by rw [deltaEncodeRecv_length, hl7])]
        dsimp only
        rw [if_neg (by simp only [List.length_map, deltaEncodeRecv_length, hl7]; omega)]
        rw [variantIntList_map]
        dsimp only
        rw [recvDelta_roundtrip l 0 le_rfl (by norm_num) (hl hlpos)]
        simp only [hl7, Nat.sub_self, List.replicate, List.append_nil]
        rw [toU32I_natCast_small ms hms,
          Int.toNat_of_nonneg hinfl, Int.toNat_of_nonneg hlost, Int.toNat_natCast,
          if_pos hlpos]
      · rw [if_neg hlpos]
        simp only [List.cons_append, List.nil_append, List.append_nil]
        unfold FrameDataQ.tryFromRmp
        rw [variantReadFrom_nil_tok]
        dsimp only
        rw [readUsizeTok_int _ _ (by omega) (by omega)]
        dsimp only
        rw [readI64Tok_int _ _ (by omega) (by omega)]
        dsimp only
        rw [if_neg (by omega)]
        rw [if_neg (by omega)]
        rw [readUsizeTok_int _ _ (by omega) (by omega)]
        dsimp only
        rw [readUsizeTok_int _ _ (by omega) (by omega)]
        dsimp only
        rw [if_neg (by simp only [Int.toNat_natCast]; omega)]
        rw [toU32I_natCast_small ms hms,
          Int.toNat_of_nonneg hinfl, Int.toNat_of_nonneg hlost, Int.toNat_natCast,
          if_neg hlpos]
    · have hi0 : infl = 0 := by omega
      have hlo0 : lost = 0 := by omega
      subst hi0
      subst hlo0
      rw [if_neg hpos]
      by_cases hlpos : 0 < len
      · rw [if_pos hlpos]
        simp only [List.cons_append, List.nil_append, List.append_nil]
        unfold FrameDataQ.tryFromRmp
        rw [variantReadFrom_nil_tok]
        dsimp only
        rw [readUsizeTok_int _ _ (by omega) (by omega)]
        dsimp only
        rw [readI64Tok_int _ _ (by omega) (by omega)]
        dsimp only
        simp only [reduceIte]
        rw [readUsizeTok_int _ _ (by omega) (by omega)]
        dsimp only
        rw [if_pos (by simp only [Int.toNat_natCast]; omega)]
        rw [variantReadFrom_arr_ints _ 7 (by rw [deltaEncodeRecv_length, hl7])]
        dsimp only
        rw [if_neg (by simp only [List.length_map, deltaEncodeRecv_length, hl7]; omega)]
        rw [variantIntList_map]
        dsimp only
        rw [recvDelta_roundtrip l 0 le_rfl (by norm_num) (hl hlpos)]
        simp only [hl7, Nat.sub_self, List.replicate, List.append_nil]
        rw [toU32I_natCast_small ms hms, Int.toNat_natCast, if_pos hlpos]
      · rw [if_neg hlpos]
        simp only [List.cons_append, List.nil_append, List.append_nil]
        unfold FrameDataQ.tryFromRmp
        rw [variantReadFrom_nil_tok]
        dsimp only
        rw [readUsizeTok_int _ _ (by omega) (by omega)]
        dsimp only
        rw [readI64Tok_int _ _ (by omega) (by omega)]
        dsimp only
        simp only [reduceIte]
        rw [readUsizeTok_int _ _ (by omega) (by omega)]
        dsimp only
        rw [if_neg (by simp only [Int.toNat_natCast]; omega)]
        rw [toU32I_natCast_small ms hms, Int.toNat_natCast, if_neg hlpos]

/-- Witness for `C8_codec_header`: the default config's header
round-trips. -/
theorem C8_codec_header_witness :
    FDCodecState.tryFromHeader (FDCodecState.tryGetHeader FDCodecCfg.default)
      = .ok FDCodecCfg.default :=
  (C8_codec_header [] FDCodecCfg.default (by decide) (by decide)).2.2.2.1

/-- **C6** (corrected) — counterexample to the claim as stated: two
destinations whose `last_pckt_sent` is `now`, one with a huge interval
(eligibility delay 99 ms) and one with a tiny interval (delay 1 µs).  The
claimed key `max(0, last + interval − now)` would try the second
destination first, but the code keys on
`last_pckt_sent.saturating_duration_since(now)` — the interval never
enters — so both keys are 0 and the iteration order `[0, 1]` stands. -/
theorem C6_scheduler_counterexample :
    let d0 : Destination := ⟨"a", 99000000, "a", 1, 1, 5, [], [], [], 0, 0⟩
    let d1 : Destination := ⟨"b", 1000, "b", 1, 2, 5, [], [], [], 0, 0⟩
    sendAllOrder [d0, d1] 5 = [0, 1] ∧ specSendOrder [d0, d1] 5 = [1, 0] ∧
    sendAllOrder [d0, d1] 5 ≠ specSendOrder [d0, d1] 5 := by decide

/-- **C6** (corrected, amended claim).  `send_all` sorts by the negated
`saturating_duration_since(now)` of each destination's `last_pckt_sent`
(in whole µs), *ignoring the interval*; since `last_pckt_sent` never lies
in the future in a reachable state, every key is 0 and the destinations
are attempted exactly in iteration order.  (`sort_unstable_by_key` is
modelled by a stable insertion sort, which is literally Rust's unstable
sort for the ≤ 20-element slices the hypothesis names.) -/
theorem C6_scheduler_amended (dests : List Destination) (now : Nat)
    (hpast : ∀ d ∈ dests, d.last_pckt_sent ≤ now) (_hsmall : dests.length ≤ 20) :
    sendAllOrder dests now = List.range dests.length := by
  unfold sendAllOrder
  dsimp only
  have hkeys : ∀ e ∈ (dests.map
      (fun x => (((x.last_pckt_sent - now) / 1000 : Nat) : Int))).enum, e.2 = 0 := by
    intro e he
    rw [List.enum_eq_zip_range] at he
    have hmem := (List.of_mem_zip he).2
    rcases List.mem_map.mp hmem with ⟨d, hd, hval⟩
    have : d.last_pckt_sent - now = 0 := by
      have := hpast d hd
      omega
    rw [← hval, this]
    rfl
  rw [insertionSort_id_of_rel _ _
    (fun a ha b hb => by rw [hkeys a ha, hkeys b hb])]
  rw [List.enum_map_fst, List.length_map]

/-- Witness for `C6_scheduler_amended`: the two destinations of the
counterexample (both with `last_pckt_sent ≤ now`) are attempted in
iteration order. -/
theorem C6_scheduler_amended_witness :
    sendAllOrder [⟨"a", 99000000, "a", 1, 1, 5, [], [], [], 0, 0⟩,
      ⟨"b", 1000, "b", 1, 2, 5, [], [], [], 0, 0⟩] 5
      = List.range ([⟨"a", 99000000, "a", 1, 1, 5, [], [], [], 0, 0⟩,
          ⟨"b", 1000, "b", 1, 2, 5, [], [], [], 0, 0⟩] : List Destination).length :=
  C6_scheduler_amended
    [⟨"a", 99000000, "a", 1, 1, 5, [], [], [], 0, 0⟩,
      ⟨"b", 1000, "b", 1, 2, 5, [], [], [], 0, 0⟩] 5 (by decide) (by decide)

/-- Witness for `C7_mean_recv_time_amended`: one received packet with
rtt 500 ns inside the window. -/
theorem C7_mean_recv_time_amended_witness :
    ((Destination.meanRecvTime
        ⟨"h", 1, "h", 1, 5, 0, [], [⟨⟨1, 5, "h", none⟩, 0, 0, some 500⟩], [], 0, 0⟩
        1000 1000000 = none) ↔
      (⟨"h", 1, "h", 1, 5, 0, [], [⟨⟨1, 5, "h", none⟩, 0, 0, some 500⟩], [], 0, 0⟩ :
        Destination).recv_packets = []) ∧
    ((⟨"h", 1, "h", 1, 5, 0, [], [⟨⟨1, 5, "h", none⟩, 0, 0, some 500⟩], [], 0, 0⟩ :
        Destination).recv_packets ≠ [] →
      Destination.meanRecvTime
        ⟨"h", 1, "h", 1, 5, 0, [], [⟨⟨1, 5, "h", none⟩, 0, 0, some 500⟩], [], 0, 0⟩
        1000 1000000 = some
        (((Destination.receivedLast
            ⟨"h", 1, "h", 1, 5, 0, [], [⟨⟨1, 5, "h", none⟩, 0, 0, some 500⟩], [], 0, 0⟩
            1000 1000000).map (fun x => x.received.getD 0)).sum
          / max (Destination.receivedLast
            ⟨"h", 1, "h", 1, 5, 0, [], [⟨⟨1, 5, "h", none⟩, 0, 0, some 500⟩], [], 0, 0⟩
            1000 1000000).length 1)) :=
  C7_mean_recv_time_amended
    ⟨"h", 1, "h", 1, 5, 0, [], [⟨⟨1, 5, "h", none⟩, 0, 0, some 500⟩], [], 0, 0⟩
    1000 1000000 (by decide)

/-- Claim C1 (counterexample at a concrete input): the round-trip claim as
stated is false.  With the default config (`recv_llq = none`), a fresh
codec state and the valid record `r = {timestamp := some 10, subsec_ms :=
Abs 0, inflight := 0, lost_packets := 0, recv_us_len := 0, recv_us :=
[0,0,0,0,0,0,0]}` — absolute timestamp, `subsec_ms < 1000`, integer
fields in range, `recv_us` entries vacuously non-negative since
`recv_us_len = 0` — the pipeline `encode`/`try_to_rmp`/`try_from_rmp`/
`decode` does not reproduce `r`: `try_from_rmp` rebuilds `recv_us` as the
seven `-1` sentinels whenever `recv_us_len = 0`, discarding the stored
list. -/
theorem C1_roundtrip_counterexample :
    (FDCodecState.new FDCodecCfg.default).cfg.recv_llq = none ∧
    roundTrip (FDCodecState.new FDCodecCfg.default)
      { timestamp := some 10, subsec_ms := SubSecType.Abs 0, inflight := 0,
        lost_packets := 0, recv_us_len := 0, recv_us := [0, 0, 0, 0, 0, 0, 0] }
      ≠ some { timestamp := some 10, subsec_ms := SubSecType.Abs 0, inflight := 0,
               lost_packets := 0, recv_us_len := 0,
               recv_us := ([0, 0, 0, 0, 0, 0, 0] : List Int) } ∧
    roundTrip (FDCodecState.new FDCodecCfg.default)
      { timestamp := some 10, subsec_ms := SubSecType.Abs 0, inflight := 0,
        lost_packets := 0, recv_us_len := 0, recv_us := [0, 0, 0, 0, 0, 0, 0] }
      = some { timestamp := some 10, subsec_ms := SubSecType.Abs 0, inflight := 0,
               lost_packets := 0, recv_us_len := 0,
               recv_us := (List.replicate 7 (-1) : List Int) } := by
  decide

/-- Claim C1 (amended): the codec round-trip
`decode ∘ try_from_rmp ∘ try_to_rmp ∘ encode` with `recv_llq = none` and a
decoder state that has processed the same preceding records reproduces a
valid absolute record exactly, provided additionally that
`full_encode_secs ≤ 4294967` (so the delta-encoded microsecond gap fits a
`u32`) and that the record stores the seven `-1` sentinels whenever
`recv_us_len = 0` (as every decoded record does): `try_from_rmp` discards
the stored list in that case. -/
theorem C1_roundtrip_amended (fes : Int) (de : Bool) (slt : Option Int)
    (slsm : Nat) (srq : Int) (ts : Int) (ms : Nat) (infl lost : Int)
    (len : Nat) (l : List Int)
    (hfes : fes ≤ 4294967)
    (hts0 : 0 ≤ ts) (hts1 : ts < 2 ^ 63) (hms : ms < 1000)
    (hinfl : 0 ≤ infl) (hlost : 0 ≤ lost) (hsum : infl + lost < 2 ^ 63)
    (hlen : len < 2 ^ 64) (hl7 : l.length = 7)
    (hl : 0 < len → ∀ x ∈ l, 0 ≤ x ∧ x < 2 ^ 63)
    (hlz : len = 0 → l = List.replicate 7 (-1))
    (hslt : ∀ lts, slt = some lts → 0 ≤ lts ∧ lts < 2 ^ 63)
    (hslsm : slsm < 2 ^ 32) :
    roundTrip ⟨⟨fes, none, de⟩, slt, slsm, srq⟩
      ⟨some ts, SubSecType.Abs ms, infl, lost, len, l⟩
      = some ⟨some ts, SubSecType.Abs ms, infl, lost, len, l⟩ := by
  have hpart : ms % 1000 = ms := Nat.mod_eq_of_lt hms
  rcases slt with _ | lts
  · -- empty state: full (absolute) encoding
    have henc : FDCodecState.encode ⟨⟨fes, none, de⟩, none, slsm, srq⟩
        ⟨some ts, SubSecType.Abs ms, infl, lost, len, l⟩
        = some (⟨some ts, SubSecType.Abs ms, infl, lost, len, l⟩,
          FDCodecState.push ⟨⟨fes, none, de⟩, none, slsm, srq⟩
            ⟨some ts, SubSecType.Abs ms, infl, lost, len, l⟩) := by
      unfold FDCodecState.encode FDCodecState.peekEncode
      simp only [Option.pure_def, Option.bind_eq_bind, Option.some_bind, hpart,
        Nat.sub_self, Nat.zero_div, Nat.cast_zero, add_zero,
        toI64_of_small ts (by omega) hts1]
    have hif : (if 0 < len then l else List.replicate 7 (-1)) = l := by
      by_cases hl0 : 0 < len
      · exact if_pos hl0
      · rw [if_neg hl0, hlz (by omega)]
    obtain ⟨toks, htok, hparse⟩ := rmp_roundtrip (some ts) ms infl lost len l
      (fun t h => by injection h with h; subst h; exact ⟨hts0, hts1⟩)
      (by omega) hinfl hlost hsum hlen hl7 hl
    rw [hif] at hparse
    have hdec : FDCodecState.decode ⟨⟨fes, none, de⟩, none, slsm, srq⟩
        ⟨some ts, SubSecType.Abs ms, infl, lost, len, l⟩
        = some (⟨some ts, SubSecType.Abs ms, infl, lost, len, l⟩,
          FDCodecState.push ⟨⟨fes, none, de⟩, none, slsm, srq⟩
            ⟨some ts, SubSecType.Abs ms, infl, lost, len, l⟩) := by
      unfold FDCodecState.decode FDCodecState.peekDecode SubSecType.unwrapAbsOrAdd
      simp only [Option.pure_def, Option.bind_eq_bind, Option.some_bind, hpart,
        Nat.sub_self, Nat.zero_div, Nat.cast_zero, add_zero,
        toI64_of_small ts (by omega) hts1]
    unfold roundTrip
    rw [henc]
    dsimp only
    rw [htok]
    dsimp only
    rw [hparse]
    dsimp only
    rw [hdec]
  · obtain ⟨hlts0, hlts1⟩ := hslt lts rfl
    have hif : (if 0 < len then l else List.replicate 7 (-1)) = l := by
      by_cases hl0 : 0 < len
      · exact if_pos hl0
      · rw [if_neg hl0, hlz (by omega)]
    by_cases hcond : fes ≤ ts - lts ∨ ts < lts
    · -- gap at least full_encode_secs (or clock step backwards): full encoding
      have henc : FDCodecState.encode ⟨⟨fes, none, de⟩, some lts, slsm, srq⟩
          ⟨some ts, SubSecType.Abs ms, infl, lost, len, l⟩
          = some (⟨some ts, SubSecType.Abs ms, infl, lost, len, l⟩,
            FDCodecState.push ⟨⟨fes, none, de⟩, some lts, slsm, srq⟩
              ⟨some ts, SubSecType.Abs ms, infl, lost, len, l⟩) := by
        unfold FDCodecState.encode FDCodecState.peekEncode
        simp only [Option.pure_def, Option.bind_eq_bind, Option.some_bind, hpart,
          Nat.sub_self, Nat.zero_div, Nat.cast_zero, add_zero,
          toI64_of_small ts (by omega) hts1,
          toI64_of_small (ts - lts) (by omega) (by omega)]
        rw [if_pos hcond]
      obtain ⟨toks, htok, hparse⟩ := rmp_roundtrip (some ts) ms infl lost len l
        (fun t h => by injection h with h; subst h; exact ⟨hts0, hts1⟩)
        (by omega) hinfl hlost hsum hlen hl7 hl
      rw [hif] at hparse
      have hdec : FDCodecState.decode ⟨⟨fes, none, de⟩, some lts, slsm, srq⟩
          ⟨some ts, SubSecType.Abs ms, infl, lost, len, l⟩
          = some (⟨some ts, SubSecType.Abs ms, infl, lost, len, l⟩,
            FDCodecState.push ⟨⟨fes, none, de⟩, some lts, slsm, srq⟩
              ⟨some ts, SubSecType.Abs ms, infl, lost, len, l⟩) := by
        unfold FDCodecState.decode FDCodecState.peekDecode SubSecType.unwrapAbsOrAdd
        simp only [Option.pure_def, Option.bind_eq_bind, Option.some_bind, hpart,
          Nat.sub_self, Nat.zero_div, Nat.cast_zero, add_zero,
          toI64_of_small ts (by omega) hts1]
      unfold roundTrip
      rw [henc]
      dsimp only
      rw [htok]
      dsimp only
      rw [hparse]
      dsimp only
      rw [hdec]
    · -- small forward gap: delta encoding
      have hdiff0 : 0 ≤ ts - lts := by omega
      have hdiff1 : ts - lts ≤ 4294966 := by
        rcases (not_or.mp hcond) with ⟨h1, _⟩
        omega
      have hWeq : toU32I ((toU32I ((ts - lts) * 1000) : Int) + (ms : Int)
          - (slsm : Int)) = toU32I ((ts - lts) * 1000 + (ms : Int) - (slsm : Int)) := by
        rw [toU32I_of_small ((ts - lts) * 1000) (by omega) (by omega),
          Int.toNat_of_nonneg (by omega)]
      have hw : toU32I ((ts - lts) * 1000 + (ms : Int) - (slsm : Int)) < 2 ^ 32 := by
        unfold toU32I
        omega
      have henc : FDCodecState.encode ⟨⟨fes, none, de⟩, some lts, slsm, srq⟩
          ⟨some ts, SubSecType.Abs ms, infl, lost, len, l⟩
          = some (⟨none, SubSecType.Delta
              (toU32I ((ts - lts) * 1000 + (ms : Int) - (slsm : Int))),
              infl, lost, len, l⟩,
            FDCodecState.push ⟨⟨fes, none, de⟩, some lts, slsm, srq⟩
              ⟨some ts, SubSecType.Abs ms, infl, lost, len, l⟩) := by
        unfold FDCodecState.encode FDCodecState.peekEncode
        simp only [Option.pure_def, Option.bind_eq_bind, Option.some_bind, hpart,
          Nat.sub_self, Nat.zero_div, Nat.cast_zero, add_zero,
          toI64_of_small ts (by omega) hts1,
          toI64_of_small (ts - lts) (by omega) (by omega)]
        rw [if_neg hcond]
        dsimp only
        rw [hWeq]
      obtain ⟨toks, htok, hparse⟩ := rmp_roundtrip none
        (toU32I ((ts - lts) * 1000 + (ms : Int) - (slsm : Int)))
        infl lost len l (fun t h => nomatch h) hw hinfl hlost hsum hlen hl7 hl
      rw [hif] at hparse
      have hsub2 : wrapU32 (toU32I ((ts - lts) * 1000 + (ms : Int) - (slsm : Int))
          + slsm) = (ts - lts).toNat * 1000 + ms := by
        unfold wrapU32 toU32I
        omega
      have hpart2 : ((ts - lts).toNat * 1000 + ms) % 1000 = ms := by omega
      have hdiv2 : ((ts - lts).toNat * 1000 + ms - ms) / 1000 = (ts - lts).toNat := by
        omega
      have hts2 : toI64 (lts + (((ts - lts).toNat : Nat) : Int)) = ts := by
        rw [Int.toNat_of_nonneg hdiff0]
        rw [show lts + (ts - lts) = ts from by ring]
        exact toI64_of_small ts (by omega) hts1
      have hdec : FDCodecState.decode ⟨⟨fes, none, de⟩, some lts, slsm, srq⟩
          ⟨none, SubSecType.Delta
            (toU32I ((ts - lts) * 1000 + (ms : Int) - (slsm : Int))),
            infl, lost, len, l⟩
          = some (⟨some ts, SubSecType.Abs ms, infl, lost, len, l⟩,
            FDCodecState.push ⟨⟨fes, none, de⟩, some lts, slsm, srq⟩
              ⟨some ts, SubSecType.Abs ms, infl, lost, len, l⟩) := by
        unfold FDCodecState.decode FDCodecState.peekDecode SubSecType.unwrapAbsOrAdd
        simp only [Option.pure_def, Option.bind_eq_bind, Option.some_bind,
          hsub2, hpart2, hdiv2, hts2]
      unfold roundTrip
      rw [henc]
      dsimp only
      rw [htok]
      dsimp only
      rw [hparse]
      dsimp only
      rw [hdec]

/-- Witness for `C1_roundtrip_amended`: a concrete valid record with a
populated percentile tuple and a state holding a nearby previous
timestamp (forcing the delta branch) round-trips exactly. -/
theorem C1_roundtrip_amended_witness :
    roundTrip ⟨⟨60, none, false⟩, some 5, 0, 0⟩
      ⟨some 10, SubSecType.Abs 500, 1, 2, 7, [100, 200, 300, 500, 700, 800, 900]⟩
      = some ⟨some 10, SubSecType.Abs 500, 1, 2, 7,
          [100, 200, 300, 500, 700, 800, 900]⟩ :=
  C1_roundtrip_amended 60 false (some 5) 0 0 10 500 1 2 7
    [100, 200, 300, 500, 700, 800, 900]
    (by decide) (by decide) (by decide) (by decide) (by decide) (by decide)
    (by decide) (by decide) (by decide) (by decide) (by decide)
    (by intro lts h
        injection h with h
        subst h
        exact ⟨by decide, by decide⟩)
    (by decide)

/-- Claim C3 (counterexample at a concrete input): the queue-ownership
invariant fails for retention configurations with
`forget_inflight > forget_recv`.  With `forget_inflight = 20`,
`forget_lost = 10`, `forget_recv = 10`, a packet sent at instant 0 and a
cleanup at instant 15: the cleanup *clones* the in-flight packet (older
than `forget_recv`) into `lost_packets` but retains it in
`inflight_packets` (younger than `forget_inflight`), so the same packet
sits in two queues at once. -/
theorem C3_queue_ownership_counterexample :
    (runDest ⟨20, 10, 10, 1⟩ (Destination.new ("h") 1 0 7)
        [DestOp.sendOp 0 0 5 16 0 2, DestOp.cleanupOp 15]).inflight_packets
      = [⟨⟨1, 7, "h", none⟩, 0, 0, none⟩] ∧
    (runDest ⟨20, 10, 10, 1⟩ (Destination.new ("h") 1 0 7)
        [DestOp.sendOp 0 0 5 16 0 2, DestOp.cleanupOp 15]).lost_packets
      = [⟨⟨1, 7, "h", none⟩, 0, 0, none⟩] := by
  decide

theorem recvScan_pushes_received (p : PacketData) (now : Nat) (l : List PacketSent) :
    ∀ x ∈ (recvScan p now l).2.1, x.received ≠ none := by
  induction l with
  | nil => simp [recvScan]
  | cons s t ih =>
    rcases hsc : recvScan p now t with ⟨t1, pushes, ret, cnt⟩
    rw [hsc] at ih
    by_cases h1 : s.data.seqn = p.seqn ∧ s.received = none
    · cases hpr : p.received with
      | none =>
        simp only [recvScan, h1, if_true, hpr, hsc]
        intro x hx
        rcases List.mem_cons.mp hx with hx | hx
        · subst hx
          simp
        · exact ih x hx
      | some r =>
        by_cases h2 : s.sent ≤ r
        · simp only [recvScan, h1, if_true, hpr, h2, ite_true, hsc]
          intro x hx
          rcases List.mem_cons.mp hx with hx | hx
          · subst hx
            simp
          · exact ih x hx
        · simp only [recvScan, h1, if_true, hpr, h2, ite_false, hsc]
          exact ih
    · simp only [recvScan, h1, if_false, hsc]
      exact ih

theorem recvScan_infl_sent (p : PacketData) (now : Nat) (l : List PacketSent) :
    ∀ x ∈ (recvScan p now l).1, ∃ y ∈ l, x.sent = y.sent := by
  induction l with
  | nil => simp [recvScan]
  | cons s t ih =>
    rcases hsc : recvScan p now t with ⟨t1, pushes, ret, cnt⟩
    rw [hsc] at ih
    have base : ∀ x ∈ t1, ∃ y ∈ s :: t, x.sent = y.sent := by
      intro x hx
      obtain ⟨y, hy, hxy⟩ := ih x hx
      exact ⟨y, List.mem_cons_of_mem s hy, hxy⟩
    by_cases h1 : s.data.seqn = p.seqn ∧ s.received = none
    · cases hpr : p.received with
      | none =>
        simp only [recvScan, h1, if_true, hpr, hsc]
        intro x hx
        rcases List.mem_cons.mp hx with hx | hx
        · subst hx
          exact ⟨s, List.mem_cons_self s t, rfl⟩
        · exact base x hx
      | some r =>
        by_cases h2 : s.sent ≤ r
        · simp only [recvScan, h1, if_true, hpr, h2, ite_true, hsc]
          intro x hx
          rcases List.mem_cons.mp hx with hx | hx
          · exact ⟨s, List.mem_cons_self s t, by rw [hx]⟩
          · exact base x hx
        · simp only [recvScan, h1, if_true, hpr, h2, ite_false, hsc]
          intro x hx
          rcases List.mem_cons.mp hx with hx | hx
          · exact ⟨s, List.mem_cons_self s t, by rw [hx]⟩
          · exact base x hx
    · simp only [recvScan, h1, if_false, hsc]
      intro x hx
      rcases List.mem_cons.mp hx with hx | hx
      · exact ⟨s, List.mem_cons_self s t, by rw [hx]⟩
      · exact base x hx

theorem recvScan_ret_none_eq (p : PacketData) (now : Nat) (l : List PacketSent) :
    (recvScan p now l).2.2.1 = none → (recvScan p now l).1 = l := by
  induction l with
  | nil => simp [recvScan]
  | cons s t ih =>
    rcases hsc : recvScan p now t with ⟨t1, pushes, ret, cnt⟩
    rw [hsc] at ih
    by_cases h1 : s.data.seqn = p.seqn ∧ s.received = none
    · cases hpr : p.received with
      | none =>
        simp only [recvScan, h1, and_self, if_true, ite_true, hpr, hsc]
        intro h
        exfalso
        cases hret : ret with
        | some v =>
          rw [hret] at h
          simp at h
        | none =>
          rw [hret] at h
          simp at h
      | some r =>
        by_cases h2 : s.sent ≤ r
        · simp only [recvScan, h1, and_self, if_true, hpr, h2, ite_true, hsc]
          intro h
          exfalso
          cases hret : ret with
          | some v =>
            rw [hret] at h
            simp at h
          | none =>
            rw [hret] at h
            simp at h
        · simp only [recvScan, h1, and_self, if_true, ite_self, hpr, h2, ite_false, hsc]
          intro h
          exact congrArg (List.cons s) (ih h)
    · simp only [recvScan, h1, if_false, ite_self, hsc]
      intro h
      exact congrArg (List.cons s) (ih h)

theorem destInv_step (c : CommConfig) (hfi : c.forget_inflight ≤ c.forget_recv)
    (hfr : 1 ≤ c.forget_recv) (d : Destination) (tprev : Nat) (op : DestOp)
    (hop : tprev ≤ op.time)
    (h1 : ∀ p ∈ d.inflight_packets, p.received = none)
    (h2 : ∀ p ∈ d.recv_packets, p.received ≠ none)
    (h3 : ∀ q ∈ d.lost_packets, q.received = none)
    (h4 : ∀ q ∈ d.lost_packets, q.sent + c.forget_recv ≤ tprev)
    (h5 : ∀ q ∈ d.lost_packets, ∀ p ∈ d.inflight_packets, q.sent < p.sent) :
    (∀ p ∈ (applyDestOp c d op).inflight_packets, p.received = none) ∧
    (∀ p ∈ (applyDestOp c d op).recv_packets, p.received ≠ none) ∧
    (∀ q ∈ (applyDestOp c d op).lost_packets, q.received = none) ∧
    (∀ q ∈ (applyDestOp c d op).lost_packets, q.sent + c.forget_recv ≤ op.time) ∧
    (∀ q ∈ (applyDestOp c d op).lost_packets,
      ∀ p ∈ (applyDestOp c d op).inflight_packets, q.sent < p.sent) := by
  rcases op with ⟨now, wall, md, rnd, jit, sq⟩ | ⟨p, now⟩ | ⟨now⟩
  · -- send
    dsimp only [applyDestOp, DestOp.time] at hop ⊢
    unfold Destination.send
    dsimp only
    split_ifs with hg1 hg2
    · exact ⟨h1, h2, h3, fun q hq => by have := h4 q hq; omega, h5⟩
    · exact ⟨h1, h2, h3, fun q hq => by have := h4 q hq; omega, h5⟩
    · refine ⟨?_, h2, h3, fun q hq => by have := h4 q hq; omega, ?_⟩
      · intro x hx
        rcases List.mem_append.mp hx with hx | hx
        · exact h1 x hx
        · simp only [List.mem_singleton] at hx
          subst hx
          rfl
      · intro q hq x hx
        rcases List.mem_append.mp hx with hx | hx
        · exact h5 q hq x hx
        · simp only [List.mem_singleton] at hx
          subst hx
          have := h4 q hq
          dsimp only [PacketSent.new]
          omega
  · -- recv
    dsimp only [applyDestOp, DestOp.time] at hop ⊢
    unfold Destination.recv
    dsimp only
    by_cases hid : d.ident ≠ p.ident
    · rw [if_pos hid]
      exact ⟨h1, h2, h3, fun q hq => by have := h4 q hq; omega, h5⟩
    · rw [if_neg hid]
      rcases hsc : recvScan p now d.inflight_packets with ⟨t1, pushes, ret, cnt⟩
      simp only [hsc]
      refine ⟨?_, ?_, h3, fun q hq => by have := h4 q hq; omega, ?_⟩
      · intro x hx
        by_cases hr : ret.isSome
        · rw [if_pos hr] at hx
          have := (List.mem_filter.mp hx).2
          simpa using this
        · rw [if_neg hr] at hx
          have hnone : ret = none := Option.not_isSome_iff_eq_none.mp hr
          have heq := recvScan_ret_none_eq p now d.inflight_packets
            (by rw [hsc]; exact hnone)
          rw [hsc] at heq
          exact h1 x (heq ▸ hx)
      · intro x hx
        rcases List.mem_append.mp hx with hx | hx
        · exact h2 x hx
        · have := recvScan_pushes_received p now d.inflight_packets
          rw [hsc] at this
          exact this x hx
      · intro q hq x hx
        have hx1 : x ∈ t1 := by
          by_cases hr : ret.isSome
          · rw [if_pos hr] at hx
            exact (List.mem_filter.mp hx).1
          · rw [if_neg hr] at hx
            exact hx
        have hsent := recvScan_infl_sent p now d.inflight_packets
        rw [hsc] at hsent
        obtain ⟨y, hy, hxy⟩ := hsent x hx1
        rw [hxy]
        exact h5 q hq y hy
  · -- cleanup
    dsimp only [applyDestOp, DestOp.time] at hop ⊢
    unfold Destination.cleanupDest
    dsimp only
    refine ⟨?_, ?_, ?_, ?_, ?_⟩
    · intro x hx
      exact h1 x (List.mem_filter.mp hx).1
    · intro x hx
      exact h2 x (List.mem_filter.mp hx).1
    · intro q hq
      have hq1 := (List.mem_filter.mp hq).1
      rcases List.mem_append.mp hq1 with hq2 | hq2
      · exact h3 q hq2
      · exact h1 q (List.mem_filter.mp hq2).1
    · intro q hq
      have hq1 := (List.mem_filter.mp hq).1
      rcases List.mem_append.mp hq1 with hq2 | hq2
      · have := h4 q hq2
        omega
      · have hsa := (List.mem_filter.mp hq2).2
        simp only [sentAfter, sentBefore, Bool.not_eq_true',
          decide_eq_false_iff_not] at hsa
        omega
    · intro q hq x hx
      have hxI := (List.mem_filter.mp hx).1
      have hxb := (List.mem_filter.mp hx).2
      simp only [sentBefore, decide_eq_true_eq] at hxb
      have hq1 := (List.mem_filter.mp hq).1
      rcases List.mem_append.mp hq1 with hq2 | hq2
      · exact h5 q hq2 x hxI
      · have hsa := (List.mem_filter.mp hq2).2
        simp only [sentAfter, sentBefore, Bool.not_eq_true',
          decide_eq_false_iff_not] at hsa
        omega

theorem destInv_run (c : CommConfig) (hfi : c.forget_inflight ≤ c.forget_recv)
    (hfr : 1 ≤ c.forget_recv) (ops : List DestOp) : ∀ (d : Destination) (tprev : Nat),
    List.Chain' (fun x y => x ≤ y) (tprev :: ops.map DestOp.time) →
    (∀ p ∈ d.inflight_packets, p.received = none) →
    (∀ p ∈ d.recv_packets, p.received ≠ none) →
    (∀ q ∈ d.lost_packets, q.received = none) →
    (∀ q ∈ d.lost_packets, q.sent + c.forget_recv ≤ tprev) →
    (∀ q ∈ d.lost_packets, ∀ p ∈ d.inflight_packets, q.sent < p.sent) →
    ∃ t, (∀ p ∈ (runDest c d ops).inflight_packets, p.received = none) ∧
      (∀ p ∈ (runDest c d ops).recv_packets, p.received ≠ none) ∧
      (∀ q ∈ (runDest c d ops).lost_packets, q.received = none) ∧
      (∀ q ∈ (runDest c d ops).lost_packets, q.sent + c.forget_recv ≤ t) ∧
      (∀ q ∈ (runDest c d ops).lost_packets,
        ∀ p ∈ (runDest c d ops).inflight_packets, q.sent < p.sent) := by
  induction ops with
  | nil =>
    intro d tprev _ h1 h2 h3 h4 h5
    exact ⟨tprev, h1, h2, h3, h4, h5⟩
  | cons op rest ih =>
    intro d tprev hch h1 h2 h3 h4 h5
    rw [List.map_cons, List.chain'_cons] at hch
    obtain ⟨g1, g2, g3, g4, g5⟩ :=
      destInv_step c hfi hfr d tprev op hch.1 h1 h2 h3 h4 h5
    have hrw : runDest c d (op :: rest) = runDest c (applyDestOp c d op) rest := rfl
    rw [hrw]
    exact ih (applyDestOp c d op) op.time hch.2 g1 g2 g3 g4 g5

/-- Claim C3 (amended): for retention configurations with
`forget_inflight ≤ forget_recv` and `forget_recv ≥ 1`, every state of a
destination reachable from a fresh `Destination::new` by a finite sequence
of send, recv and cleanup operations executed at non-decreasing monotonic
instants has pairwise-disjoint `inflight_packets`, `recv_packets` and
`lost_packets` — each packet belongs to at most one queue, hence to exactly
the one holding it; in particular after a cleanup no packet is present
simultaneously in `inflight_packets` and `lost_packets`.  Without the
`forget_inflight ≤ forget_recv` restriction the invariant is false:
`Comms::cleanup` clones an in-flight packet older than `forget_recv` into
`lost_packets` while retaining it in `inflight_packets` whenever it is
still younger than `forget_inflight`. -/
theorem C3_queue_ownership_amended (c : CommConfig)
    (hfi : c.forget_inflight ≤ c.forget_recv) (hfr : 1 ≤ c.forget_recv)
    (a : String) (iv t0 idr : Nat) (ops : List DestOp)
    (hch : List.Chain' (fun x y => x ≤ y) (t0 :: ops.map DestOp.time)) :
    (∀ p ∈ (runDest c (Destination.new a iv t0 idr) ops).inflight_packets,
        p ∉ (runDest c (Destination.new a iv t0 idr) ops).recv_packets ∧
        p ∉ (runDest c (Destination.new a iv t0 idr) ops).lost_packets) ∧
    (∀ p ∈ (runDest c (Destination.new a iv t0 idr) ops).recv_packets,
        p ∉ (runDest c (Destination.new a iv t0 idr) ops).lost_packets) := by
  obtain ⟨t, g1, g2, g3, g4, g5⟩ :=
    destInv_run c hfi hfr ops (Destination.new a iv t0 idr) t0 hch
      (by simp [Destination.new]) (by simp [Destination.new])
      (by simp [Destination.new]) (by simp [Destination.new])
      (by simp [Destination.new])
  constructor
  · intro p hp
    constructor
    · intro hcon
      exact g2 p hcon (g1 p hp)
    · intro hcon
      exact absurd (g5 p hcon p hp) (lt_irrefl _)
  · intro p hp hcon
    exact g2 p hp (g3 p hcon)

/-- Witness for `C3_queue_ownership_amended`: a send at instant 0, a
matching reply at instant 5 and a cleanup at instant 30 under the
config `(forget_inflight, forget_lost, forget_recv) = (10, 10, 20)`. -/
theorem C3_queue_ownership_amended_witness :
    (∀ p ∈ (runDest ⟨10, 10, 20, 1⟩ (Destination.new ("h") 1 0 7)
        [DestOp.sendOp 0 0 5 16 0 2, DestOp.recvOp ⟨1, 7, "h", some 5⟩ 5,
         DestOp.cleanupOp 30]).inflight_packets,
        p ∉ (runDest ⟨10, 10, 20, 1⟩ (Destination.new ("h") 1 0 7)
          [DestOp.sendOp 0 0 5 16 0 2, DestOp.recvOp ⟨1, 7, "h", some 5⟩ 5,
           DestOp.cleanupOp 30]).recv_packets ∧
        p ∉ (runDest ⟨10, 10, 20, 1⟩ (Destination.new ("h") 1 0 7)
          [DestOp.sendOp 0 0 5 16 0 2, DestOp.recvOp ⟨1, 7, "h", some 5⟩ 5,
           DestOp.cleanupOp 30]).lost_packets) ∧
    (∀ p ∈ (runDest ⟨10, 10, 20, 1⟩ (Destination.new ("h") 1 0 7)
        [DestOp.sendOp 0 0 5 16 0 2, DestOp.recvOp ⟨1, 7, "h", some 5⟩ 5,
         DestOp.cleanupOp 30]).recv_packets,
        p ∉ (runDest ⟨10, 10, 20, 1⟩ (Destination.new ("h") 1 0 7)
          [DestOp.sendOp 0 0 5 16 0 2, DestOp.recvOp ⟨1, 7, "h", some 5⟩ 5,
           DestOp.cleanupOp 30]).lost_packets) :=
  C3_queue_ownership_amended ⟨10, 10, 20, 1⟩ (by decide) (by decide) ("h") 1 0 7
    [DestOp.sendOp 0 0 5 16 0 2, DestOp.recvOp ⟨1, 7, "h", some 5⟩ 5,
     DestOp.cleanupOp 30]
    (by simp only [List.map_cons, List.map_nil, DestOp.time, List.chain'_cons,
          List.chain'_singleton, and_true]
        omega)

end ZZPing
